import Mathlib

/-!
Verification of the ReLAPACK routine `dgemmt` (triangular-output general
matrix-matrix product), shallowly embedded from `src/relapack/src/dgemmt.c`.

The routine computes C := alpha * op(A) * op(B) + beta * C but updates only
the lower or upper triangle (including the diagonal) of the square n-by-n
result C.  Matrices live in caller-owned flat column-major storage; we model
a double-precision array as a total function `Nat → ℚ` (exact rationals stand
in for IEEE doubles, as the algorithmic claims are about exact arithmetic)
and a matrix argument as such a function together with a base offset and a
leading dimension, mirroring the C pointer arithmetic.

Every call to an external collaborator (the BLAS primitives `dgemm` and
`dgemv`, the diagnostic routine `xerbla`, and the optional native `dgemmt`)
is recorded in an event trace, so that claims about which primitives fire,
in what order, and where they write can be stated and proved.
-/

namespace Relapack

/-- Flat column-major storage of double-precision values; entry (i, j) of a
matrix based at offset `o` with leading dimension `ld` lives at address
`o + i + ld * j`. -/
abbrev Mem : Type := Nat → ℚ

/-- Modelled from the spec: `LAPACK(lsame)`, the case-insensitive character
comparator used by the validator (its source is not part of this repository):
two characters compare equal iff they agree up to letter case. -/
def lsame (ca cb : Char) : Bool := ca.toUpper == cb.toUpper

/-- One call to an external collaborator, recording the full argument list
(pointer arguments are recorded as their base offsets into the flat storage). -/
inductive Event : Type where
  | xerbla (name : String) (info : Int)
  | gemm (tA tB : Char) (m n k : Nat) (alpha : ℚ) (oA ldA oB ldB : Nat)
      (beta : ℚ) (oC ldC : Nat)
  | gemv (trans : Char) (m n : Nat) (alpha : ℚ) (oA ldA ox incx : Nat)
      (beta : ℚ) (oy incy : Nat)
  | nativeGemmt (uplo tA tB : Char) (n k : Int)
  deriving DecidableEq

/-- Whether an event writes the flat address `p` of the C array
(`xerbla` and the recursive bookkeeping write nothing; a `gemm` call writes
the m-by-n column-major block at offset oC; a `gemv` call writes the output
vector of the appropriate length at offset oy with stride incy). -/
def eventWritesB (ev : Event) (p : Nat) : Bool :=
  match ev with
  | .xerbla _ _ => false
  | .nativeGemmt _ _ _ _ _ => false
  | .gemm _ _ m n _ _ _ _ _ _ _ oC ldC =>
      decide (oC ≤ p) && decide ((p - oC) % ldC < m) && decide ((p - oC) / ldC < n)
  | .gemv t m n _ _ _ _ _ _ oy incy =>
      let outLen := if t == 'N' then m else n
      decide (oy ≤ p) && decide ((p - oy) % incy = 0) && decide ((p - oy) / incy < outLen)

/-- Whether an event is a matrix-vector multiply call. -/
def Event.isGemv : Event → Bool
  | .gemv _ _ _ _ _ _ _ _ _ _ _ => true
  | _ => false

/-- The output stride of a `gemv` event (0 for other events). -/
def Event.gemvIncy : Event → Nat
  | .gemv _ _ _ _ _ _ _ _ _ _ incy => incy
  | _ => 0

/-- The x-operand stride of a `gemv` event (0 for other events). -/
def Event.gemvIncx : Event → Nat
  | .gemv _ _ _ _ _ _ _ incx _ _ _ => incx
  | _ => 0

/-- Entry (i, l) of op(A): A(i, l) if A is used as given, A(l, i) if transposed. -/
def opAe (tA : Char) (A : Mem) (oA ldA : Nat) (i l : Nat) : ℚ :=
  if tA == 'N' then A (oA + i + ldA * l) else A (oA + l + ldA * i)

/-- Entry (l, j) of op(B): B(l, j) if B is used as given, B(j, l) if transposed. -/
def opBe (tB : Char) (B : Mem) (oB ldB : Nat) (l j : Nat) : ℚ :=
  if tB == 'N' then B (oB + l + ldB * j) else B (oB + j + ldB * l)

/-- Modelled from the spec: the memory effect of the external dense primitive
`BLAS(dgemm)` ("full general multiply C := alpha * op(A) * op(B) + beta * C
with no triangular restriction"), writing the m-by-n column-major block of C
at offset oC.  A written address decomposes uniquely as oC + i + ldC * j with
i < m, j < n; the decomposition guard is faithful for ldC ≥ m, which BLAS
argument validity guarantees at every call site. -/
def dgemm (tA tB : Char) (m n k : Nat) (alpha : ℚ) (A : Mem) (oA ldA : Nat)
    (B : Mem) (oB ldB : Nat) (beta : ℚ) (C : Mem) (oC ldC : Nat) : Mem :=
  fun p =>
    if oC ≤ p ∧ (p - oC) % ldC < m ∧ (p - oC) / ldC < n then
      alpha * ∑ l ∈ Finset.range k,
          opAe tA A oA ldA ((p - oC) % ldC) l * opBe tB B oB ldB l ((p - oC) / ldC)
        + beta * C p
    else C p

/-- Modelled from the spec: the memory effect of the external dense primitive
`BLAS(dgemv)` (matrix-vector multiply y := alpha * op(A) * x + beta * y),
writing the output vector of length m (trans = 'N') or n (trans = 'T') at
offset oy with stride incy, reading x at offset ox with stride incx. -/
def dgemv (trans : Char) (m n : Nat) (alpha : ℚ) (A : Mem) (oA ldA : Nat)
    (x : Mem) (ox incx : Nat) (beta : ℚ) (y : Mem) (oy incy : Nat) : Mem :=
  let outLen := if trans == 'N' then m else n
  let sumLen := if trans == 'N' then n else m
  fun p =>
    if oy ≤ p ∧ (p - oy) % incy = 0 ∧ (p - oy) / incy < outLen then
      alpha * ∑ l ∈ Finset.range sumLen,
          (if trans == 'N' then A (oA + (p - oy) / incy + ldA * l)
           else A (oA + l + ldA * ((p - oy) / incy))) * x (ox + l * incx)
        + beta * y p
    else y p

/-- A `BLAS(dgemm)` call: the recorded event together with its memory effect. -/
def dgemmCall (tA tB : Char) (m n k : Nat) (alpha : ℚ) (A : Mem) (oA ldA : Nat)
    (B : Mem) (oB ldB : Nat) (beta : ℚ) (C : Mem) (oC ldC : Nat) : List Event × Mem :=
  ([Event.gemm tA tB m n k alpha oA ldA oB ldB beta oC ldC],
    dgemm tA tB m n k alpha A oA ldA B oB ldB beta C oC ldC)

/-- A `BLAS(dgemv)` call: the recorded event together with its memory effect. -/
def dgemvCall (trans : Char) (m n : Nat) (alpha : ℚ) (A : Mem) (oA ldA : Nat)
    (x : Mem) (ox incx : Nat) (beta : ℚ) (y : Mem) (oy incy : Nat) : List Event × Mem :=
  ([Event.gemv trans m n alpha oA ldA ox incx beta oy incy],
    dgemv trans m n alpha A oA ldA x ox incx beta y oy incy)

/-- Modelled from the spec: the split policy `DREC_SPLIT` from the ReLAPACK
configuration header (not in the repository): "choose a split point n1
(n1 ≈ half of n, rounded per a fixed policy; n2 = n - n1)". -/
def DREC_SPLIT (n : Nat) : Nat := n / 2

/-- `RELAPACK_dgemmt_rec2`, dgemmt's unblocked compute kernel
(src/relapack/src/dgemmt.c, lines 125-165), translated with an explicit base
offset for each pointer argument.  It loops over the n columns, issuing one
`dgemv` call per column index i. -/
def RELAPACK_dgemmt_rec2 (uplo tA tB : Char) (n k : Nat) (alpha : ℚ)
    (A : Mem) (oA ldA : Nat) (B : Mem) (oB ldB : Nat) (beta : ℚ)
    (C : Mem) (oC ldC : Nat) : List Event × Mem :=
  let incB := if tB == 'N' then 1 else ldB
  let incC := 1
  (List.range n).foldl (fun acc i =>
    let oA_0 := oA
    let oA_i := oA + (if tA == 'N' then i else ldA * i)
    let oB_i := oB + (if tB == 'N' then ldB * i else i)
    let oC_0i := oC + ldC * i
    let oC_ii := oC + ldC * i + i
    let r :=
      if uplo == 'L' then
        let nmi := n - i
        if tA == 'N' then
          dgemvCall tA nmi k alpha A oA_i ldA B oB_i incB beta acc.2 oC_ii incC
        else
          dgemvCall tA k nmi alpha A oA_i ldA B oB_i incB beta acc.2 oC_ii incC
      else
        let ip1 := i + 1
        if tA == 'N' then
          dgemvCall tA ip1 k alpha A oA_0 ldA B oB_i incB beta acc.2 oC_0i incC
        else
          dgemvCall tA k ip1 alpha A oA_0 ldA B oB_i incB beta acc.2 oC_0i incC
    (acc.1 ++ r.1, r.2)) ([], C)

/-- The memory effect of the i-th loop iteration of `RELAPACK_dgemmt_rec2`
(the body of the loop at src/relapack/src/dgemmt.c, lines 140-164, projected
to its effect on C). -/
def rec2Step (uplo tA tB : Char) (n k : Nat) (alpha : ℚ)
    (A : Mem) (oA ldA : Nat) (B : Mem) (oB ldB : Nat) (beta : ℚ)
    (oC ldC : Nat) (M : Mem) (i : Nat) : Mem :=
  let incB := if tB == 'N' then 1 else ldB
  let incC := 1
  let oA_0 := oA
  let oA_i := oA + (if tA == 'N' then i else ldA * i)
  let oB_i := oB + (if tB == 'N' then ldB * i else i)
  let oC_0i := oC + ldC * i
  let oC_ii := oC + ldC * i + i
  if uplo == 'L' then
    let nmi := n - i
    if tA == 'N' then
      dgemv tA nmi k alpha A oA_i ldA B oB_i incB beta M oC_ii incC
    else
      dgemv tA k nmi alpha A oA_i ldA B oB_i incB beta M oC_ii incC
  else
    let ip1 := i + 1
    if tA == 'N' then
      dgemv tA ip1 k alpha A oA_0 ldA B oB_i incB beta M oC_0i incC
    else
      dgemv tA k ip1 alpha A oA_0 ldA B oB_i incB beta M oC_0i incC

/-- The `dgemv` event issued by the i-th loop iteration of
`RELAPACK_dgemmt_rec2` (the events depend only on the scalar arguments, not
on the memory contents). -/
def rec2Ev (uplo tA tB : Char) (n k : Nat) (alpha : ℚ)
    (oA ldA oB ldB : Nat) (beta : ℚ) (oC ldC : Nat) (i : Nat) : Event :=
  let incB := if tB == 'N' then 1 else ldB
  let incC := 1
  let oA_0 := oA
  let oA_i := oA + (if tA == 'N' then i else ldA * i)
  let oB_i := oB + (if tB == 'N' then ldB * i else i)
  let oC_0i := oC + ldC * i
  let oC_ii := oC + ldC * i + i
  if uplo == 'L' then
    let nmi := n - i
    if tA == 'N' then
      Event.gemv tA nmi k alpha oA_i ldA oB_i incB beta oC_ii incC
    else
      Event.gemv tA k nmi alpha oA_i ldA oB_i incB beta oC_ii incC
  else
    let ip1 := i + 1
    if tA == 'N' then
      Event.gemv tA ip1 k alpha oA_0 ldA oB_i incB beta oC_0i incC
    else
      Event.gemv tA k ip1 alpha oA_0 ldA oB_i incB beta oC_0i incC

/-- First row (inclusive) of column j touched by the kernels: j for the
lower triangle, 0 for the upper one. -/
def rowLo (uplo : Char) (j : Nat) : Nat := if uplo == 'L' then j else 0

/-- One past the last row of column j touched by the kernels: n for the
lower triangle, j + 1 for the upper one. -/
def rowHi (uplo : Char) (n j : Nat) : Nat := if uplo == 'L' then n else j + 1

/-- `RELAPACK_dgemmt_rec`, dgemmt's recursive compute kernel
(src/relapack/src/dgemmt.c, lines 75-121).  The compile-time constant
`CROSSOVER_DGEMMT` (supplied by the configuration header, not in the
repository) is taken as the explicit parameter `crossover`. -/
def RELAPACK_dgemmt_rec (crossover : Nat) (uplo tA tB : Char) (n k : Nat)
    (alpha : ℚ) (A : Mem) (oA ldA : Nat) (B : Mem) (oB ldB : Nat) (beta : ℚ)
    (C : Mem) (oC ldC : Nat) : List Event × Mem :=
  if n ≤ max crossover 1 then
    RELAPACK_dgemmt_rec2 uplo tA tB n k alpha A oA ldA B oB ldB beta C oC ldC
  else
    let n1 := DREC_SPLIT n
    let n2 := n - n1
    let oA_T := oA
    let oA_B := oA + (if tA == 'N' then n1 else ldA * n1)
    let oB_L := oB
    let oB_R := oB + (if tB == 'N' then ldB * n1 else n1)
    let oC_TL := oC
    let oC_TR := oC + ldC * n1
    let oC_BL := oC + n1
    let oC_BR := oC + ldC * n1 + n1
    let r1 := RELAPACK_dgemmt_rec crossover uplo tA tB n1 k alpha A oA_T ldA
      B oB_L ldB beta C oC_TL ldC
    let r2 :=
      if uplo == 'L' then
        dgemmCall tA tB n2 n1 k alpha A oA_B ldA B oB_L ldB beta r1.2 oC_BL ldC
      else
        dgemmCall tA tB n1 n2 k alpha A oA_T ldA B oB_R ldB beta r1.2 oC_TR ldC
    let r3 := RELAPACK_dgemmt_rec crossover uplo tA tB n2 k alpha A oA_B ldA
      B oB_R ldB beta r2.2 oC_BR ldC
    (r1.1 ++ r2.1 ++ r3.1, r3.2)
termination_by n
decreasing_by
  · simp only [DREC_SPLIT]; omega
  · simp only [DREC_SPLIT]; omega

/-- The argument-checking chain of `RELAPACK_dgemmt`
(src/relapack/src/dgemmt.c, lines 41-58): the 1-based parameter index of the
first violated constraint in the fixed scan order (uplo, transA, transB, n, k,
ldA, ldB, ldC), or 0 when all constraints hold. -/
def dgemmt_info (uplo tA tB : Char) (n k ldA ldB ldC : Int) : Int :=
  let lower := lsame uplo 'L'
  let upper := lsame uplo 'U'
  let notransA := lsame tA 'N'
  let tranA := lsame tA 'T'
  let notransB := lsame tB 'N'
  let tranB := lsame tB 'T'
  if !lower && !upper then 1
  else if !tranA && !notransA then 2
  else if !tranB && !notransB then 3
  else if n < 0 then 4
  else if k < 0 then 5
  else if ldA < max 1 (if notransA then n else k) then 8
  else if ldB < max 1 (if notransB then k else n) then 10
  else if ldC < max 1 n then 13
  else 0

/-- Modelled from the spec: the native triangular-multiply primitive
`BLAS(dgemmt)` supplied by the underlying library when `HAVE_XGEMMT` is set
(its source is not part of this repository).  Per the spec it is trusted to
perform the same validation and then update exactly the selected triangle
with the dense product, leaving C unchanged on invalid arguments. -/
def BLAS_dgemmt (uplo tA tB : Char) (n k : Int) (alpha : ℚ)
    (A : Mem) (ldA : Int) (B : Mem) (ldB : Int) (beta : ℚ)
    (C : Mem) (ldC : Int) : Mem :=
  if dgemmt_info uplo tA tB n k ldA ldB ldC ≠ 0 then C
  else fun p =>
    if p % ldC.toNat < n.toNat ∧ p / ldC.toNat < n.toNat ∧
        (if lsame uplo 'L' then p / ldC.toNat ≤ p % ldC.toNat
         else p % ldC.toNat ≤ p / ldC.toNat) then
      alpha * ∑ l ∈ Finset.range k.toNat,
          opAe (if lsame tA 'N' then 'N' else 'T') A 0 ldA.toNat (p % ldC.toNat) l *
            opBe (if lsame tB 'N' then 'N' else 'T') B 0 ldB.toNat l (p / ldC.toNat)
        + beta * C p
    else C p

/-- `RELAPACK_dgemmt`, the entry point (src/relapack/src/dgemmt.c, lines
21-72).  The compile-time flag `HAVE_XGEMMT` is taken as the explicit
parameter `haveXgemmt`: when set, the source forwards directly to
`BLAS(dgemmt)`; otherwise it validates the arguments, reports the first
violation through `xerbla`, and on valid input normalizes the selector
characters and invokes the recursive kernel. -/
def RELAPACK_dgemmt (haveXgemmt : Bool) (crossover : Nat)
    (uplo tA tB : Char) (n k : Int) (alpha : ℚ)
    (A : Mem) (ldA : Int) (B : Mem) (ldB : Int) (beta : ℚ)
    (C : Mem) (ldC : Int) : List Event × Mem :=
  if haveXgemmt then
    ([Event.nativeGemmt uplo tA tB n k],
      BLAS_dgemmt uplo tA tB n k alpha A ldA B ldB beta C ldC)
  else
    let lower := lsame uplo 'L'
    let notransA := lsame tA 'N'
    let notransB := lsame tB 'N'
    let info := dgemmt_info uplo tA tB n k ldA ldB ldC
    if info ≠ 0 then
      ([Event.xerbla "DGEMMT" info], C)
    else
      let cleanuplo := if lower then 'L' else 'U'
      let cleantransA := if notransA then 'N' else 'T'
      let cleantransB := if notransB then 'N' else 'T'
      RELAPACK_dgemmt_rec crossover cleanuplo cleantransA cleantransB
        n.toNat k.toNat alpha A 0 ldA.toNat B 0 ldB.toNat beta C 0 ldC.toNat

/-- Semantic validity of the arguments, following the spec's table: selector
characters accepted by the case-insensitive comparator, n ≥ 0, k ≥ 0, and
each leading dimension at least its minimum. -/
def argsValid (uplo tA tB : Char) (n k ldA ldB ldC : Int) : Prop :=
  (lsame uplo 'L' = true ∨ lsame uplo 'U' = true) ∧
  (lsame tA 'N' = true ∨ lsame tA 'T' = true) ∧
  (lsame tB 'N' = true ∨ lsame tB 'T' = true) ∧
  0 ≤ n ∧ 0 ≤ k ∧
  max 1 (if lsame tA 'N' then n else k) ≤ ldA ∧
  max 1 (if lsame tB 'N' then k else n) ≤ ldB ∧
  max 1 n ≤ ldC

instance (uplo tA tB : Char) (n k ldA ldB ldC : Int) :
    Decidable (argsValid uplo tA tB n k ldA ldB ldC) := by
  unfold argsValid; infer_instance

/-- Flat address of entry (i, j) of a matrix based at offset `o` with leading
dimension `ld`. -/
def cellAddr (o ld i j : Nat) : Nat := o + i + ld * j

/-- Whether row i, column j lies in the selected triangle (diagonal included):
j ≤ i for the lower triangle, i ≤ j for the upper one. -/
def triSel (uplo : Char) (i j : Nat) : Prop :=
  if uplo == 'L' then j ≤ i else i ≤ j

instance (uplo : Char) (i j : Nat) : Decidable (triSel uplo i j) := by
  unfold triSel; infer_instance

/-- Whether the flat address p is a cell of the selected triangle of the
n-by-n matrix C based at offset oC with leading dimension ldC. -/
def isTriCell (uplo : Char) (n oC ldC : Nat) (p : Nat) : Prop :=
  ∃ i j, i < n ∧ j < n ∧ triSel uplo i j ∧ p = cellAddr oC ldC i j

/-- The reference value of output entry (i, j), following the spec's oracle:
entry (i, j) of the full dense product alpha * op(A) * op(B) + beta * C,
with C taken at its pre-call state. -/
def triVal (tA tB : Char) (k : Nat) (alpha : ℚ) (A : Mem) (oA ldA : Nat)
    (B : Mem) (oB ldB : Nat) (beta : ℚ) (C : Mem) (oC ldC : Nat) (i j : Nat) : ℚ :=
  alpha * ∑ l ∈ Finset.range k, opAe tA A oA ldA i l * opBe tB B oB ldB l j
    + beta * C (cellAddr oC ldC i j)

end Relapack

namespace Relapack

/-! ### Address arithmetic for column-major cells -/

theorem cellAddr_decomp_mod {i : Nat} (ld : Nat) (j : Nat) (h : i < ld) :
    (i + ld * j) % ld = i := by
  simp [Nat.add_mul_mod_self_left, Nat.mod_eq_of_lt h]

theorem cellAddr_decomp_div {i : Nat} (ld : Nat) (j : Nat) (h : i < ld) :
    (i + ld * j) / ld = j := by
  have hld : 0 < ld := Nat.lt_of_le_of_lt (Nat.zero_le i) h
  rw [Nat.add_mul_div_left _ _ hld, Nat.div_eq_of_lt h, Nat.zero_add]

theorem cellAddr_sub {o ld i j : Nat} : cellAddr o ld i j - o = i + ld * j := by
  simp [cellAddr, Nat.add_assoc]

theorem cellAddr_le {o ld i j : Nat} : o ≤ cellAddr o ld i j := by
  simp [cellAddr, Nat.add_assoc, Nat.le_add_right]

theorem cellAddr_inj {o ld i j i' j' : Nat} (hi : i < ld) (hi' : i' < ld)
    (h : cellAddr o ld i j = cellAddr o ld i' j') : i = i' ∧ j = j' := by
  have h2 : i + ld * j = i' + ld * j' := by
    have := congrArg (fun x => x - o) h
    simpa [cellAddr_sub] using this
  have hm : i = i' := by
    have := congrArg (fun x => x % ld) h2
    simpa [cellAddr_decomp_mod ld _ hi, cellAddr_decomp_mod ld _ hi'] using this
  have hd : j = j' := by
    have := congrArg (fun x => x / ld) h2
    simpa [cellAddr_decomp_div ld _ hi, cellAddr_decomp_div ld _ hi'] using this
  exact ⟨hm, hd⟩

/-- Any address consisting of the base offset plus a remainder decomposes as a
cell once the guard of `dgemm` holds. -/
theorem addr_eq_cellAddr {o ld p : Nat} (hp : o ≤ p) :
    p = cellAddr o ld ((p - o) % ld) ((p - o) / ld) := by
  have hd : ld * ((p - o) / ld) + (p - o) % ld = p - o := Nat.div_add_mod (p - o) ld
  unfold cellAddr
  omega

/-! ### Effect of a single `dgemm` call -/

theorem dgemm_cell (tA tB : Char) {m n : Nat} (k : Nat) (alpha : ℚ) (A : Mem)
    (oA ldA : Nat) (B : Mem) (oB ldB : Nat) (beta : ℚ) (C : Mem) (oC : Nat)
    {ldC : Nat} {i j : Nat} (hi : i < m) (hj : j < n) (hm : m ≤ ldC) :
    dgemm tA tB m n k alpha A oA ldA B oB ldB beta C oC ldC (cellAddr oC ldC i j)
      = triVal tA tB k alpha A oA ldA B oB ldB beta C oC ldC i j := by
  have hild : i < ldC := Nat.lt_of_lt_of_le hi hm
  unfold dgemm triVal
  rw [if_pos]
  · rw [cellAddr_sub, cellAddr_decomp_mod ldC j hild, cellAddr_decomp_div ldC j hild]
  · refine ⟨cellAddr_le, ?_, ?_⟩
    · rw [cellAddr_sub, cellAddr_decomp_mod ldC j hild]; exact hi
    · rw [cellAddr_sub, cellAddr_decomp_div ldC j hild]; exact hj

theorem dgemm_frame (tA tB : Char) {m n : Nat} (k : Nat) (alpha : ℚ) (A : Mem)
    (oA ldA : Nat) (B : Mem) (oB ldB : Nat) (beta : ℚ) (C : Mem) (oC : Nat)
    {ldC : Nat} {p : Nat}
    (hp : ∀ i j, i < m → j < n → p ≠ cellAddr oC ldC i j) :
    dgemm tA tB m n k alpha A oA ldA B oB ldB beta C oC ldC p = C p := by
  unfold dgemm
  rw [if_neg]
  rintro ⟨h1, h2, h3⟩
  exact hp _ _ h2 h3 (addr_eq_cellAddr h1)

/-- The write set of a `gemm` event, characterized as a set of cells (faithful
whenever m ≤ ldC, as at every call site). -/
theorem gemm_writesB_iff (tA tB : Char) {m n : Nat} (k : Nat) (alpha : ℚ)
    (oA ldA oB ldB : Nat) (beta : ℚ) (oC : Nat) {ldC : Nat} (p : Nat)
    (hm : m ≤ ldC) :
    eventWritesB (Event.gemm tA tB m n k alpha oA ldA oB ldB beta oC ldC) p = true
      ↔ ∃ i j, i < m ∧ j < n ∧ p = cellAddr oC ldC i j := by
  unfold eventWritesB
  simp only [Bool.and_eq_true, decide_eq_true_eq]
  constructor
  · rintro ⟨⟨h1, h2⟩, h3⟩
    exact ⟨(p - oC) % ldC, (p - oC) / ldC, h2, h3, addr_eq_cellAddr h1⟩
  · rintro ⟨i, j, hi, hj, rfl⟩
    have hild : i < ldC := Nat.lt_of_lt_of_le hi hm
    rw [cellAddr_sub, cellAddr_decomp_mod ldC j hild, cellAddr_decomp_div ldC j hild]
    exact ⟨⟨cellAddr_le, hi⟩, hj⟩

/-! ### Effect of a single `dgemv` call (with unit output stride, as at every
call site of the unblocked kernel) -/

theorem dgemv_cell (trans : Char) {m n : Nat} (alpha : ℚ) (A : Mem)
    (oA ldA : Nat) (x : Mem) (ox incx : Nat) (beta : ℚ) (y : Mem) (oy : Nat)
    {r : Nat} (hr : r < if trans == 'N' then m else n) :
    dgemv trans m n alpha A oA ldA x ox incx beta y oy 1 (oy + r)
      = alpha * ∑ l ∈ Finset.range (if trans == 'N' then n else m),
          (if trans == 'N' then A (oA + r + ldA * l) else A (oA + l + ldA * r))
            * x (ox + l * incx)
        + beta * y (oy + r) := by
  unfold dgemv
  simp only [Nat.add_sub_cancel_left, Nat.mod_one, Nat.div_one]
  rw [if_pos ⟨Nat.le_add_right _ _, trivial, hr⟩]

theorem dgemv_frame (trans : Char) {m n : Nat} (alpha : ℚ) (A : Mem)
    (oA ldA : Nat) (x : Mem) (ox incx : Nat) (beta : ℚ) (y : Mem) (oy : Nat)
    {p : Nat} (hp : ∀ r, r < (if trans == 'N' then m else n) → p ≠ oy + r) :
    dgemv trans m n alpha A oA ldA x ox incx beta y oy 1 p = y p := by
  unfold dgemv
  rw [if_neg]
  simp only [Nat.mod_one, Nat.div_one]
  rintro ⟨h1, -, h3⟩
  exact hp _ h3 (by omega)

/-- The write set of a `gemv` event with unit output stride. -/
theorem gemv_writesB_iff (trans : Char) (m n : Nat) (alpha : ℚ)
    (oA ldA ox incx : Nat) (beta : ℚ) (oy : Nat) (p : Nat) :
    eventWritesB (Event.gemv trans m n alpha oA ldA ox incx beta oy 1) p = true
      ↔ ∃ r, r < (if trans == 'N' then m else n) ∧ p = oy + r := by
  unfold eventWritesB
  simp only [Bool.and_eq_true, decide_eq_true_eq, Nat.mod_one, Nat.div_one]
  constructor
  · rintro ⟨⟨h1, -⟩, h3⟩
    exact ⟨p - oy, h3, by omega⟩
  · rintro ⟨r, hr, rfl⟩
    simp only [Nat.add_sub_cancel_left]
    exact ⟨⟨Nat.le_add_right _ _, trivial⟩, hr⟩

end Relapack

namespace Relapack

/-! ### Generic splitting of the instrumented fold into trace and memory -/

theorem foldl_pair_snd {α γ β : Type} (f : γ × β → α → γ × β) (g : β → α → β)
    (hf : ∀ acc a, (f acc a).2 = g acc.2 a) :
    ∀ (l : List α) (acc : γ × β), (l.foldl f acc).2 = l.foldl g acc.2 := by
  intro l
  induction l with
  | nil => intro acc; rfl
  | cons a l ih =>
      intro acc
      rw [List.foldl_cons, List.foldl_cons, ih, hf]

theorem foldl_pair_fst {α β : Type} (f : List Event × β → α → List Event × β)
    (e : α → Event) (hf : ∀ acc a, (f acc a).1 = acc.1 ++ [e a]) :
    ∀ (l : List α) (acc : List Event × β), (l.foldl f acc).1 = acc.1 ++ l.map e := by
  intro l
  induction l with
  | nil => intro acc; simp
  | cons a l ih =>
      intro acc
      rw [List.foldl_cons, List.map_cons, ih, hf]
      simp

/-! ### The unblocked kernel as a trace plus a memory fold -/

theorem rec2_snd (uplo tA tB : Char) (n k : Nat) (alpha : ℚ)
    (A : Mem) (oA ldA : Nat) (B : Mem) (oB ldB : Nat) (beta : ℚ)
    (C : Mem) (oC ldC : Nat) :
    (RELAPACK_dgemmt_rec2 uplo tA tB n k alpha A oA ldA B oB ldB beta C oC ldC).2
      = (List.range n).foldl
          (rec2Step uplo tA tB n k alpha A oA ldA B oB ldB beta oC ldC) C := by
  unfold RELAPACK_dgemmt_rec2
  refine foldl_pair_snd _ _ (fun acc i => ?_) _ _
  simp only [rec2Step, dgemvCall]
  split
  · split <;> rfl
  · split <;> rfl

theorem rec2_fst (uplo tA tB : Char) (n k : Nat) (alpha : ℚ)
    (A : Mem) (oA ldA : Nat) (B : Mem) (oB ldB : Nat) (beta : ℚ)
    (C : Mem) (oC ldC : Nat) :
    (RELAPACK_dgemmt_rec2 uplo tA tB n k alpha A oA ldA B oB ldB beta C oC ldC).1
      = (List.range n).map (rec2Ev uplo tA tB n k alpha oA ldA oB ldB beta oC ldC) := by
  unfold RELAPACK_dgemmt_rec2
  refine Eq.trans
    (foldl_pair_fst _ (rec2Ev uplo tA tB n k alpha oA ldA oB ldB beta oC ldC)
      (fun acc i => ?_) (List.range n) ([], C)) (by simp)
  simp only [rec2Ev, dgemvCall]
  split
  · split <;> rfl
  · split <;> rfl

end Relapack

namespace Relapack

/-! ### Reduction of the cleaned selector comparisons -/

theorem beqLL : ('L' == 'L') = true := rfl
theorem beqUL : ('U' == 'L') = false := rfl
theorem beqNN : ('N' == 'N') = true := rfl
theorem beqTN : ('T' == 'N') = false := rfl

theorem rowHi_le_n {uplo : Char} {n j : Nat} (hj : j < n) : rowHi uplo n j ≤ n := by
  unfold rowHi; split <;> omega

theorem row_lt_n {uplo : Char} {n j r : Nat} (hj : j < n) (h : r < rowHi uplo n j) :
    r < n := Nat.lt_of_lt_of_le h (rowHi_le_n hj)

theorem triSel_rows {uplo : Char} {n i j : Nat} (hi : i < n) :
    triSel uplo i j ↔ (rowLo uplo j ≤ i ∧ i < rowHi uplo n j) := by
  unfold triSel rowLo rowHi; split <;> omega

/-! ### Effect of one loop iteration of the unblocked kernel -/

theorem rec2Step_cell {uplo tA tB : Char} (hu : uplo = 'L' ∨ uplo = 'U')
    (hA : tA = 'N' ∨ tA = 'T') (hB : tB = 'N' ∨ tB = 'T')
    (n k : Nat) (alpha beta : ℚ) (A B : Mem) (oA ldA oB ldB oC ldC : Nat)
    {j r : Nat} (h1 : rowLo uplo j ≤ r) (h2 : r < rowHi uplo n j) (M : Mem) :
    rec2Step uplo tA tB n k alpha A oA ldA B oB ldB beta oC ldC M j (cellAddr oC ldC r j)
      = triVal tA tB k alpha A oA ldA B oB ldB beta M oC ldC r j := by
  rcases hu with rfl | rfl
  · -- lower triangle: column j, rows j..n-1
    simp only [rowLo, rowHi, beqLL, if_true] at h1 h2
    have hcell : cellAddr oC ldC r j = (oC + ldC * j + j) + (r - j) := by
      unfold cellAddr; omega
    rcases hA with rfl | rfl
    · simp only [rec2Step, beqLL, beqNN, if_true]
      unfold triVal opAe opBe
      rw [hcell]
      rw [dgemv_cell 'N' alpha A _ ldA B _ _ beta M _
        (by simp only [beqNN, if_true]; omega)]
      simp only [beqNN, if_true]
      congr 2
      refine Finset.sum_congr rfl (fun l _ => ?_)
      have hA1 : oA + j + (r - j) + ldA * l = oA + r + ldA * l := by omega
      rw [hA1]
      rcases hB with rfl | rfl
      · simp only [beqNN, if_true]
        have hB1 : oB + ldB * j + l * 1 = oB + l + ldB * j := by omega
        rw [hB1]
      · simp only [beqTN, Bool.false_eq_true, if_false]
        have hB1 : oB + j + l * ldB = oB + j + ldB * l := by ring
        rw [hB1]
    · simp only [rec2Step, beqLL, if_true, beqTN, Bool.false_eq_true, if_false]
      unfold triVal opAe opBe
      rw [hcell]
      rw [dgemv_cell 'T' alpha A _ ldA B _ _ beta M _
        (by simp only [beqTN, Bool.false_eq_true, if_false]; omega)]
      simp only [beqTN, Bool.false_eq_true, if_false]
      congr 2
      refine Finset.sum_congr rfl (fun l _ => ?_)
      have hmul : ldA * j + ldA * (r - j) = ldA * r := by
        rw [← Nat.mul_add]; congr 1; omega
      have hA1 : oA + ldA * j + l + ldA * (r - j) = oA + l + ldA * r := by omega
      rw [hA1]
      rcases hB with rfl | rfl
      · simp only [beqNN, if_true]
        have hB1 : oB + ldB * j + l * 1 = oB + l + ldB * j := by omega
        rw [hB1]
      · simp only [beqTN, Bool.false_eq_true, if_false]
        have hB1 : oB + j + l * ldB = oB + j + ldB * l := by ring
        rw [hB1]
  · -- upper triangle: column j, rows 0..j
    simp only [rowLo, rowHi, beqUL, Bool.false_eq_true, if_false] at h1 h2
    have hcell : cellAddr oC ldC r j = (oC + ldC * j) + r := by
      unfold cellAddr; omega
    rcases hA with rfl | rfl
    · simp only [rec2Step, beqUL, Bool.false_eq_true, if_false, beqNN, if_true]
      unfold triVal opAe opBe
      rw [hcell]
      rw [dgemv_cell 'N' alpha A _ ldA B _ _ beta M _
        (by simp only [beqNN, if_true]; omega)]
      simp only [beqNN, if_true]
      congr 2
      refine Finset.sum_congr rfl (fun l _ => ?_)
      rcases hB with rfl | rfl
      · simp only [beqNN, if_true]
        have hB1 : oB + ldB * j + l * 1 = oB + l + ldB * j := by omega
        rw [hB1]
      · simp only [beqTN, Bool.false_eq_true, if_false]
        have hB1 : oB + j + l * ldB = oB + j + ldB * l := by ring
        rw [hB1]
    · simp only [rec2Step, beqUL, beqTN, Bool.false_eq_true, if_false]
      unfold triVal opAe opBe
      rw [hcell]
      rw [dgemv_cell 'T' alpha A _ ldA B _ _ beta M _
        (by simp only [beqTN, Bool.false_eq_true, if_false]; omega)]
      simp only [beqTN, Bool.false_eq_true, if_false]
      congr 2
      refine Finset.sum_congr rfl (fun l _ => ?_)
      rcases hB with rfl | rfl
      · simp only [beqNN, if_true]
        have hB1 : oB + ldB * j + l * 1 = oB + l + ldB * j := by omega
        rw [hB1]
      · simp only [beqTN, Bool.false_eq_true, if_false]
        have hB1 : oB + j + l * ldB = oB + j + ldB * l := by ring
        rw [hB1]

theorem rec2Step_frame {uplo tA tB : Char} (hu : uplo = 'L' ∨ uplo = 'U')
    (hA : tA = 'N' ∨ tA = 'T')
    (n k : Nat) (alpha beta : ℚ) (A B : Mem) (oA ldA oB ldB oC ldC : Nat)
    {j p : Nat}
    (hp : ∀ r, rowLo uplo j ≤ r → r < rowHi uplo n j → p ≠ cellAddr oC ldC r j)
    (M : Mem) :
    rec2Step uplo tA tB n k alpha A oA ldA B oB ldB beta oC ldC M j p = M p := by
  rcases hu with rfl | rfl
  · simp only [rowLo, rowHi, beqLL, if_true] at hp
    rcases hA with rfl | rfl
    · simp only [rec2Step, beqLL, beqNN, if_true]
      refine dgemv_frame 'N' alpha A _ ldA B _ _ beta M _ (fun d hd heq => ?_)
      simp only [beqNN, if_true] at hd
      exact hp (j + d) (by omega) (by omega) (heq.trans (by unfold cellAddr; omega))
    · simp only [rec2Step, beqLL, if_true, beqTN, Bool.false_eq_true, if_false]
      refine dgemv_frame 'T' alpha A _ ldA B _ _ beta M _ (fun d hd heq => ?_)
      simp only [beqTN, Bool.false_eq_true, if_false] at hd
      exact hp (j + d) (by omega) (by omega) (heq.trans (by unfold cellAddr; omega))
  · simp only [rowLo, rowHi, beqUL, Bool.false_eq_true, if_false] at hp
    rcases hA with rfl | rfl
    · simp only [rec2Step, beqUL, Bool.false_eq_true, if_false, beqNN, if_true]
      refine dgemv_frame 'N' alpha A _ ldA B _ _ beta M _ (fun d hd heq => ?_)
      simp only [beqNN, if_true] at hd
      exact hp d (by omega) (by omega) (heq.trans (by unfold cellAddr; omega))
    · simp only [rec2Step, beqUL, beqTN, Bool.false_eq_true, if_false]
      refine dgemv_frame 'T' alpha A _ ldA B _ _ beta M _ (fun d hd heq => ?_)
      simp only [beqTN, Bool.false_eq_true, if_false] at hd
      exact hp d (by omega) (by omega) (heq.trans (by unfold cellAddr; omega))

end Relapack

namespace Relapack

/-- Folding the loop body of the unblocked kernel over the column indices
s, s+1, ..., s+len-1: every cell of a processed column receives the reference
value computed from the memory at the start of the fold, and every other
address is untouched. -/
theorem rec2_fold_spec {uplo tA tB : Char} (hu : uplo = 'L' ∨ uplo = 'U')
    (hA : tA = 'N' ∨ tA = 'T') (hB : tB = 'N' ∨ tB = 'T')
    (n k : Nat) (alpha beta : ℚ) (A B : Mem) (oA ldA oB ldB oC ldC : Nat)
    (hn : n ≤ ldC) :
    ∀ (len s : Nat), s + len ≤ n → ∀ M : Mem,
      (∀ j r, s ≤ j → j < s + len → rowLo uplo j ≤ r → r < rowHi uplo n j →
        (List.range' s len).foldl
            (rec2Step uplo tA tB n k alpha A oA ldA B oB ldB beta oC ldC) M
            (cellAddr oC ldC r j)
          = triVal tA tB k alpha A oA ldA B oB ldB beta M oC ldC r j)
      ∧ (∀ p, (∀ j r, s ≤ j → j < s + len → rowLo uplo j ≤ r →
            r < rowHi uplo n j → p ≠ cellAddr oC ldC r j) →
        (List.range' s len).foldl
            (rec2Step uplo tA tB n k alpha A oA ldA B oB ldB beta oC ldC) M p
          = M p) := by
  intro len
  induction len with
  | zero =>
      intro s hs M
      refine ⟨fun j r h1 h2 h3 h4 => absurd h2 (by omega), fun p hp => rfl⟩
  | succ len ih =>
      intro s hs M
      have hrec := ih (s + 1) (by omega)
        (rec2Step uplo tA tB n k alpha A oA ldA B oB ldB beta oC ldC M s)
      constructor
      · intro j r h1 h2 h3 h4
        have hjn : j < n := by omega
        have hrn : r < n := row_lt_n hjn h4
        rw [List.range'_succ, List.foldl_cons]
        by_cases hj : j = s
        · subst hj
          rw [hrec.2 (cellAddr oC ldC r j) ?_]
          · exact rec2Step_cell hu hA hB n k alpha beta A B oA ldA oB ldB oC ldC h3 h4 M
          · intro j' r' hj1 hj2 hr1 hr2 heq
            have hj'n : j' < n := by omega
            have hr'n : r' < n := row_lt_n hj'n hr2
            obtain ⟨-, hcol⟩ := cellAddr_inj (Nat.lt_of_lt_of_le hrn hn)
              (Nat.lt_of_lt_of_le hr'n hn) heq
            omega
        · rw [hrec.1 j r (by omega) (by omega) h3 h4]
          unfold triVal
          congr 2
          refine rec2Step_frame hu hA n k alpha beta A B oA ldA oB ldB oC ldC
            (fun r' hr1 hr2 heq => ?_) M
          have hr'n : r' < n := row_lt_n (by omega) hr2
          obtain ⟨-, hcol⟩ := cellAddr_inj (Nat.lt_of_lt_of_le hrn hn)
            (Nat.lt_of_lt_of_le hr'n hn) heq
          omega
      · intro p hp
        rw [List.range'_succ, List.foldl_cons]
        rw [hrec.2 p (fun j' r' h1 h2 h3 h4 => hp j' r' (by omega) (by omega) h3 h4)]
        exact rec2Step_frame hu hA n k alpha beta A B oA ldA oB ldB oC ldC
          (fun r hr1 hr2 => hp s r (by omega) (by omega) hr1 hr2) M

/-- Correctness of the unblocked kernel `RELAPACK_dgemmt_rec2`: every cell of
the selected triangle receives the reference value, every other address is
untouched. -/
theorem rec2_spec {uplo tA tB : Char} (hu : uplo = 'L' ∨ uplo = 'U')
    (hA : tA = 'N' ∨ tA = 'T') (hB : tB = 'N' ∨ tB = 'T')
    (n k : Nat) (alpha beta : ℚ) (A B : Mem) (oA ldA oB ldB : Nat) (C : Mem)
    (oC ldC : Nat) (hn : n ≤ ldC) :
    (∀ i j, i < n → j < n → triSel uplo i j →
      (RELAPACK_dgemmt_rec2 uplo tA tB n k alpha A oA ldA B oB ldB beta C oC ldC).2
          (cellAddr oC ldC i j)
        = triVal tA tB k alpha A oA ldA B oB ldB beta C oC ldC i j)
    ∧ (∀ p, (∀ i j, i < n → j < n → triSel uplo i j → p ≠ cellAddr oC ldC i j) →
      (RELAPACK_dgemmt_rec2 uplo tA tB n k alpha A oA ldA B oB ldB beta C oC ldC).2 p
        = C p) := by
  have h := rec2_fold_spec hu hA hB n k alpha beta A B oA ldA oB ldB oC ldC hn
    n 0 (by omega) C
  rw [rec2_snd, List.range_eq_range']
  constructor
  · intro i j hi hj ht
    exact h.1 j i (by omega) (by omega) ((triSel_rows hi).mp ht).1
      ((triSel_rows hi).mp ht).2
  · intro p hp
    refine h.2 p (fun j r h1 h2 h3 h4 => ?_)
    have hjn : j < n := by omega
    have hrn : r < n := row_lt_n hjn h4
    exact hp r j hrn hjn ((triSel_rows hrn).mpr ⟨h3, h4⟩)

end Relapack

namespace Relapack

/-! ### Shifting a view to a sub-block -/

theorem opAe_shift {tA : Char} (hA : tA = 'N' ∨ tA = 'T') (A : Mem)
    (oA ldA d i l : Nat) :
    opAe tA A (oA + (if tA == 'N' then d else ldA * d)) ldA i l
      = opAe tA A oA ldA (d + i) l := by
  rcases hA with rfl | rfl
  · simp only [opAe, beqNN, if_true]; congr 1; omega
  · simp only [opAe, beqTN, Bool.false_eq_true, if_false]
    congr 1; rw [Nat.mul_add]; omega

theorem opBe_shift {tB : Char} (hB : tB = 'N' ∨ tB = 'T') (B : Mem)
    (oB ldB d l j : Nat) :
    opBe tB B (oB + (if tB == 'N' then ldB * d else d)) ldB l j
      = opBe tB B oB ldB l (d + j) := by
  rcases hB with rfl | rfl
  · simp only [opBe, beqNN, if_true]; congr 1; rw [Nat.mul_add]; omega
  · simp only [opBe, beqTN, Bool.false_eq_true, if_false]; congr 1; omega

theorem cellAddr_shift_row (o ld d i j : Nat) :
    cellAddr (o + d) ld i j = cellAddr o ld (d + i) j := by
  unfold cellAddr; omega

theorem cellAddr_shift_col (o ld d i j : Nat) :
    cellAddr (o + ld * d) ld i j = cellAddr o ld i (d + j) := by
  unfold cellAddr; rw [Nat.mul_add]; omega

theorem cellAddr_shift_diag (o ld d i j : Nat) :
    cellAddr (o + ld * d + d) ld i j = cellAddr o ld (d + i) (d + j) := by
  unfold cellAddr; rw [Nat.mul_add]; omega

theorem triVal_shift_row {tA tB : Char} (hA : tA = 'N' ∨ tA = 'T')
    (k : Nat) (alpha beta : ℚ) (A B M : Mem) (oA ldA oB ldB oC ldC d i j : Nat) :
    triVal tA tB k alpha A (oA + (if tA == 'N' then d else ldA * d)) ldA
        B oB ldB beta M (oC + d) ldC i j
      = triVal tA tB k alpha A oA ldA B oB ldB beta M oC ldC (d + i) j := by
  unfold triVal
  rw [cellAddr_shift_row]
  congr 2
  exact Finset.sum_congr rfl (fun l _ => by rw [opAe_shift hA])

theorem triVal_shift_col {tA tB : Char} (hB : tB = 'N' ∨ tB = 'T')
    (k : Nat) (alpha beta : ℚ) (A B M : Mem) (oA ldA oB ldB oC ldC d i j : Nat) :
    triVal tA tB k alpha A oA ldA B (oB + (if tB == 'N' then ldB * d else d)) ldB
        beta M (oC + ldC * d) ldC i j
      = triVal tA tB k alpha A oA ldA B oB ldB beta M oC ldC i (d + j) := by
  unfold triVal
  rw [cellAddr_shift_col]
  congr 2
  exact Finset.sum_congr rfl (fun l _ => by rw [opBe_shift hB])

theorem triVal_shift_diag {tA tB : Char} (hA : tA = 'N' ∨ tA = 'T')
    (hB : tB = 'N' ∨ tB = 'T')
    (k : Nat) (alpha beta : ℚ) (A B M : Mem) (oA ldA oB ldB oC ldC d i j : Nat) :
    triVal tA tB k alpha A (oA + (if tA == 'N' then d else ldA * d)) ldA
        B (oB + (if tB == 'N' then ldB * d else d)) ldB beta M
        (oC + ldC * d + d) ldC i j
      = triVal tA tB k alpha A oA ldA B oB ldB beta M oC ldC (d + i) (d + j) := by
  unfold triVal
  rw [cellAddr_shift_diag]
  congr 2
  exact Finset.sum_congr rfl (fun l _ => by rw [opAe_shift hA, opBe_shift hB])

/-! ### Unfolding equations for the recursive kernel -/

theorem rec_base_eq (crossover : Nat) (uplo tA tB : Char) (n k : Nat)
    (alpha beta : ℚ) (A B C : Mem) (oA ldA oB ldB oC ldC : Nat)
    (h : n ≤ max crossover 1) :
    RELAPACK_dgemmt_rec crossover uplo tA tB n k alpha A oA ldA B oB ldB beta C oC ldC
      = RELAPACK_dgemmt_rec2 uplo tA tB n k alpha A oA ldA B oB ldB beta C oC ldC := by
  rw [RELAPACK_dgemmt_rec, if_pos h]

theorem rec_step_snd_L (crossover : Nat) (tA tB : Char) (n k : Nat)
    (alpha beta : ℚ) (A B C : Mem) (oA ldA oB ldB oC ldC : Nat)
    (h : ¬ n ≤ max crossover 1) :
    (RELAPACK_dgemmt_rec crossover 'L' tA tB n k alpha A oA ldA B oB ldB beta C oC ldC).2
      = (RELAPACK_dgemmt_rec crossover 'L' tA tB (n - DREC_SPLIT n) k alpha A
          (oA + (if tA == 'N' then DREC_SPLIT n else ldA * DREC_SPLIT n)) ldA B
          (oB + (if tB == 'N' then ldB * DREC_SPLIT n else DREC_SPLIT n)) ldB beta
          (dgemm tA tB (n - DREC_SPLIT n) (DREC_SPLIT n) k alpha A
            (oA + (if tA == 'N' then DREC_SPLIT n else ldA * DREC_SPLIT n)) ldA
            B oB ldB beta
            (RELAPACK_dgemmt_rec crossover 'L' tA tB (DREC_SPLIT n) k alpha A oA ldA
              B oB ldB beta C oC ldC).2
            (oC + DREC_SPLIT n) ldC)
          (oC + ldC * DREC_SPLIT n + DREC_SPLIT n) ldC).2 := by
  rw [RELAPACK_dgemmt_rec, if_neg h]
  rfl

theorem rec_step_snd_U (crossover : Nat) (tA tB : Char) (n k : Nat)
    (alpha beta : ℚ) (A B C : Mem) (oA ldA oB ldB oC ldC : Nat)
    (h : ¬ n ≤ max crossover 1) :
    (RELAPACK_dgemmt_rec crossover 'U' tA tB n k alpha A oA ldA B oB ldB beta C oC ldC).2
      = (RELAPACK_dgemmt_rec crossover 'U' tA tB (n - DREC_SPLIT n) k alpha A
          (oA + (if tA == 'N' then DREC_SPLIT n else ldA * DREC_SPLIT n)) ldA B
          (oB + (if tB == 'N' then ldB * DREC_SPLIT n else DREC_SPLIT n)) ldB beta
          (dgemm tA tB (DREC_SPLIT n) (n - DREC_SPLIT n) k alpha A oA ldA B
            (oB + (if tB == 'N' then ldB * DREC_SPLIT n else DREC_SPLIT n)) ldB beta
            (RELAPACK_dgemmt_rec crossover 'U' tA tB (DREC_SPLIT n) k alpha A oA ldA
              B oB ldB beta C oC ldC).2
            (oC + ldC * DREC_SPLIT n) ldC)
          (oC + ldC * DREC_SPLIT n + DREC_SPLIT n) ldC).2 := by
  rw [RELAPACK_dgemmt_rec, if_neg h]
  rfl

end Relapack

namespace Relapack

/-- Correctness of the recursive kernel `RELAPACK_dgemmt_rec`, for every
crossover threshold: each cell of the selected triangle receives the
reference value of the dense product, and every other address of C is left
untouched. -/
theorem rec_spec (crossover : Nat) {uplo tA tB : Char} (hu : uplo = 'L' ∨ uplo = 'U')
    (hA : tA = 'N' ∨ tA = 'T') (hB : tB = 'N' ∨ tB = 'T')
    (k : Nat) (alpha beta : ℚ) (A B : Mem) (ldA ldB ldC : Nat) :
    ∀ n, n ≤ ldC → ∀ (oA oB oC : Nat) (C : Mem),
      (∀ i j, i < n → j < n → triSel uplo i j →
        (RELAPACK_dgemmt_rec crossover uplo tA tB n k alpha A oA ldA B oB ldB beta
            C oC ldC).2 (cellAddr oC ldC i j)
          = triVal tA tB k alpha A oA ldA B oB ldB beta C oC ldC i j)
      ∧ (∀ p, (∀ i j, i < n → j < n → triSel uplo i j → p ≠ cellAddr oC ldC i j) →
        (RELAPACK_dgemmt_rec crossover uplo tA tB n k alpha A oA ldA B oB ldB beta
            C oC ldC).2 p = C p) := by
  intro n
  induction n using Nat.strong_induction_on with
  | _ n ih =>
  intro hn oA oB oC C
  by_cases hbase : n ≤ max crossover 1
  · rw [rec_base_eq crossover uplo tA tB n k alpha beta A B C oA ldA oB ldB oC ldC hbase]
    exact rec2_spec hu hA hB n k alpha beta A B oA ldA oB ldB C oC ldC hn
  · have h2n : 2 ≤ n := by omega
    rcases hu with rfl | rfl
    · -- LOWER
      rw [rec_step_snd_L crossover tA tB n k alpha beta A B C oA ldA oB ldB oC ldC hbase]
      set n1 := DREC_SPLIT n with hn1d
      have hn1 : 0 < n1 ∧ n1 < n := by rw [hn1d]; unfold DREC_SPLIT; omega
      set M1 := (RELAPACK_dgemmt_rec crossover 'L' tA tB n1 k alpha A oA ldA
        B oB ldB beta C oC ldC).2 with hM1
      set oAB := oA + (if tA == 'N' then n1 else ldA * n1) with hoAB
      set oBR := oB + (if tB == 'N' then ldB * n1 else n1) with hoBR
      set M2 := dgemm tA tB (n - n1) n1 k alpha A oAB ldA B oB ldB beta M1
        (oC + n1) ldC with hM2
      have h1 := ih n1 (by omega) (by omega) oA oB oC C
      rw [← hM1] at h1
      have h3 := ih (n - n1) (by omega) (by omega) oAB oBR (oC + ldC * n1 + n1) M2
      constructor
      · intro i j hi hj ht
        simp only [triSel, beqLL, if_true] at ht
        by_cases hi1 : i < n1
        · -- top-left quadrant
          have hj1 : j < n1 := by omega
          have fr3 : ∀ a b, a < n - n1 → b < n - n1 → triSel 'L' a b →
              cellAddr oC ldC i j ≠ cellAddr (oC + ldC * n1 + n1) ldC a b := by
            intro a b ha hb htt heq
            rw [cellAddr_shift_diag] at heq
            obtain ⟨he1, he2⟩ := cellAddr_inj (by omega) (by omega) heq
            omega
          have frB : ∀ a b, a < n - n1 → b < n1 →
              cellAddr oC ldC i j ≠ cellAddr (oC + n1) ldC a b := by
            intro a b ha hb heq
            rw [cellAddr_shift_row] at heq
            obtain ⟨he1, he2⟩ := cellAddr_inj (by omega) (by omega) heq
            omega
          rw [h3.2 (cellAddr oC ldC i j) fr3, hM2,
            dgemm_frame tA tB k alpha A oAB ldA B oB ldB beta M1 (oC + n1) frB]
          exact h1.1 i j hi1 hj1 (by simp only [triSel, beqLL, if_true]; omega)
        · by_cases hj1 : j < n1
          · -- bottom-left block, written by the single dgemm call
            have fr3 : ∀ a b, a < n - n1 → b < n - n1 → triSel 'L' a b →
                cellAddr oC ldC i j ≠ cellAddr (oC + ldC * n1 + n1) ldC a b := by
              intro a b ha hb htt heq
              rw [cellAddr_shift_diag] at heq
              obtain ⟨he1, he2⟩ := cellAddr_inj (by omega) (by omega) heq
              omega
            have hcell : cellAddr oC ldC i j = cellAddr (oC + n1) ldC (i - n1) j := by
              rw [cellAddr_shift_row]; congr 1; omega
            rw [h3.2 (cellAddr oC ldC i j) fr3, hM2, hcell,
              dgemm_cell tA tB k alpha A oAB ldA B oB ldB beta M1 (oC + n1)
                (by omega) hj1 (by omega)]
            rw [hoAB, triVal_shift_row hA]
            rw [show n1 + (i - n1) = i from by omega]
            have hM1C : M1 (cellAddr oC ldC i j) = C (cellAddr oC ldC i j) := by
              refine h1.2 _ (fun a b ha hb htt heq => ?_)
              obtain ⟨he1, he2⟩ := cellAddr_inj (by omega) (by omega) heq
              omega
            unfold triVal
            rw [hM1C]
          · -- bottom-right quadrant
            have hcell : cellAddr oC ldC i j
                = cellAddr (oC + ldC * n1 + n1) ldC (i - n1) (j - n1) := by
              rw [cellAddr_shift_diag]; congr 1 <;> omega
            rw [hcell, h3.1 (i - n1) (j - n1) (by omega) (by omega)
              (by simp only [triSel, beqLL, if_true]; omega)]
            rw [hoAB, hoBR, triVal_shift_diag hA hB]
            rw [show n1 + (i - n1) = i from by omega,
              show n1 + (j - n1) = j from by omega]
            have frB : ∀ a b, a < n - n1 → b < n1 →
                cellAddr oC ldC i j ≠ cellAddr (oC + n1) ldC a b := by
              intro a b ha hb heq
              rw [cellAddr_shift_row] at heq
              obtain ⟨he1, he2⟩ := cellAddr_inj (by omega) (by omega) heq
              omega
            have hM2C : M2 (cellAddr oC ldC i j) = C (cellAddr oC ldC i j) := by
              rw [hM2,
                dgemm_frame tA tB k alpha A oAB ldA B oB ldB beta M1 (oC + n1) frB]
              refine h1.2 _ (fun a b ha hb htt heq => ?_)
              obtain ⟨he1, he2⟩ := cellAddr_inj (by omega) (by omega) heq
              omega
            unfold triVal
            rw [hM2C]
      · intro p hp
        have fr3 : ∀ a b, a < n - n1 → b < n - n1 → triSel 'L' a b →
            p ≠ cellAddr (oC + ldC * n1 + n1) ldC a b := by
          intro a b ha hb htt heq
          simp only [triSel, beqLL, if_true] at htt
          rw [cellAddr_shift_diag] at heq
          exact hp (n1 + a) (n1 + b) (by omega) (by omega)
            (by simp only [triSel, beqLL, if_true]; omega) heq
        have frB : ∀ a b, a < n - n1 → b < n1 →
            p ≠ cellAddr (oC + n1) ldC a b := by
          intro a b ha hb heq
          rw [cellAddr_shift_row] at heq
          exact hp (n1 + a) b (by omega) (by omega)
            (by simp only [triSel, beqLL, if_true]; omega) heq
        rw [h3.2 p fr3, hM2,
          dgemm_frame tA tB k alpha A oAB ldA B oB ldB beta M1 (oC + n1) frB]
        exact h1.2 p (fun a b ha hb htt heq =>
          hp a b (by omega) (by omega) htt heq)
    · -- UPPER
      rw [rec_step_snd_U crossover tA tB n k alpha beta A B C oA ldA oB ldB oC ldC hbase]
      set n1 := DREC_SPLIT n with hn1d
      have hn1 : 0 < n1 ∧ n1 < n := by rw [hn1d]; unfold DREC_SPLIT; omega
      set M1 := (RELAPACK_dgemmt_rec crossover 'U' tA tB n1 k alpha A oA ldA
        B oB ldB beta C oC ldC).2 with hM1
      set oAB := oA + (if tA == 'N' then n1 else ldA * n1) with hoAB
      set oBR := oB + (if tB == 'N' then ldB * n1 else n1) with hoBR
      set M2 := dgemm tA tB n1 (n - n1) k alpha A oA ldA B oBR ldB beta M1
        (oC + ldC * n1) ldC with hM2
      have h1 := ih n1 (by omega) (by omega) oA oB oC C
      rw [← hM1] at h1
      have h3 := ih (n - n1) (by omega) (by omega) oAB oBR (oC + ldC * n1 + n1) M2
      constructor
      · intro i j hi hj ht
        simp only [triSel, beqUL, Bool.false_eq_true, if_false] at ht
        by_cases hj1 : j < n1
        · -- top-left quadrant
          have hi1 : i < n1 := by omega
          have fr3 : ∀ a b, a < n - n1 → b < n - n1 → triSel 'U' a b →
              cellAddr oC ldC i j ≠ cellAddr (oC + ldC * n1 + n1) ldC a b := by
            intro a b ha hb htt heq
            rw [cellAddr_shift_diag] at heq
            obtain ⟨he1, he2⟩ := cellAddr_inj (by omega) (by omega) heq
            omega
          have frB : ∀ a b, a < n1 → b < n - n1 →
              cellAddr oC ldC i j ≠ cellAddr (oC + ldC * n1) ldC a b := by
            intro a b ha hb heq
            rw [cellAddr_shift_col] at heq
            obtain ⟨he1, he2⟩ := cellAddr_inj (by omega) (by omega) heq
            omega
          rw [h3.2 (cellAddr oC ldC i j) fr3, hM2,
            dgemm_frame tA tB k alpha A oA ldA B oBR ldB beta M1 (oC + ldC * n1) frB]
          exact h1.1 i j hi1 hj1
            (by simp only [triSel, beqUL, Bool.false_eq_true, if_false]; omega)
        · by_cases hi1 : i < n1
          · -- top-right block, written by the single dgemm call
            have fr3 : ∀ a b, a < n - n1 → b < n - n1 → triSel 'U' a b →
                cellAddr oC ldC i j ≠ cellAddr (oC + ldC * n1 + n1) ldC a b := by
              intro a b ha hb htt heq
              rw [cellAddr_shift_diag] at heq
              obtain ⟨he1, he2⟩ := cellAddr_inj (by omega) (by omega) heq
              omega
            have hcell : cellAddr oC ldC i j
                = cellAddr (oC + ldC * n1) ldC i (j - n1) := by
              rw [cellAddr_shift_col]; congr 1; omega
            rw [h3.2 (cellAddr oC ldC i j) fr3, hM2, hcell,
              dgemm_cell tA tB k alpha A oA ldA B oBR ldB beta M1 (oC + ldC * n1)
                hi1 (by omega) (by omega)]
            rw [hoBR, triVal_shift_col hB]
            rw [show n1 + (j - n1) = j from by omega]
            have hM1C : M1 (cellAddr oC ldC i j) = C (cellAddr oC ldC i j) := by
              refine h1.2 _ (fun a b ha hb htt heq => ?_)
              obtain ⟨he1, he2⟩ := cellAddr_inj (by omega) (by omega) heq
              omega
            unfold triVal
            rw [hM1C]
          · -- bottom-right quadrant
            have hcell : cellAddr oC ldC i j
                = cellAddr (oC + ldC * n1 + n1) ldC (i - n1) (j - n1) := by
              rw [cellAddr_shift_diag]; congr 1 <;> omega
            rw [hcell, h3.1 (i - n1) (j - n1) (by omega) (by omega)
              (by simp only [triSel, beqUL, Bool.false_eq_true, if_false]; omega)]
            rw [hoAB, hoBR, triVal_shift_diag hA hB]
            rw [show n1 + (i - n1) = i from by omega,
              show n1 + (j - n1) = j from by omega]
            have frB : ∀ a b, a < n1 → b < n - n1 →
                cellAddr oC ldC i j ≠ cellAddr (oC + ldC * n1) ldC a b := by
              intro a b ha hb heq
              rw [cellAddr_shift_col] at heq
              obtain ⟨he1, he2⟩ := cellAddr_inj (by omega) (by omega) heq
              omega
            have hM2C : M2 (cellAddr oC ldC i j) = C (cellAddr oC ldC i j) := by
              rw [hM2,
                dgemm_frame tA tB k alpha A oA ldA B oBR ldB beta M1 (oC + ldC * n1) frB]
              refine h1.2 _ (fun a b ha hb htt heq => ?_)
              obtain ⟨he1, he2⟩ := cellAddr_inj (by omega) (by omega) heq
              omega
            unfold triVal
            rw [hM2C]
      · intro p hp
        have fr3 : ∀ a b, a < n - n1 → b < n - n1 → triSel 'U' a b →
            p ≠ cellAddr (oC + ldC * n1 + n1) ldC a b := by
          intro a b ha hb htt heq
          simp only [triSel, beqUL, Bool.false_eq_true, if_false] at htt
          rw [cellAddr_shift_diag] at heq
          exact hp (n1 + a) (n1 + b) (by omega) (by omega)
            (by simp only [triSel, beqUL, Bool.false_eq_true, if_false]; omega) heq
        have frB : ∀ a b, a < n1 → b < n - n1 →
            p ≠ cellAddr (oC + ldC * n1) ldC a b := by
          intro a b ha hb heq
          rw [cellAddr_shift_col] at heq
          exact hp a (n1 + b) (by omega) (by omega)
            (by simp only [triSel, beqUL, Bool.false_eq_true, if_false]; omega) heq
        rw [h3.2 p fr3, hM2,
          dgemm_frame tA tB k alpha A oA ldA B oBR ldB beta M1 (oC + ldC * n1) frB]
        exact h1.2 p (fun a b ha hb htt heq =>
          hp a b (by omega) (by omega) htt heq)

end Relapack

namespace Relapack

/-! ### The validator: relating the info chain to semantic validity -/

theorem info_eq_zero_of_valid {uplo tA tB : Char} {n k ldA ldB ldC : Int}
    (h : argsValid uplo tA tB n k ldA ldB ldC) :
    dgemmt_info uplo tA tB n k ldA ldB ldC = 0 := by
  obtain ⟨hu, hA, hB, hn, hk, hldA, hldB, hldC⟩ := h
  simp only [dgemmt_info]
  rw [if_neg (show ¬((!(lsame uplo 'L') && !(lsame uplo 'U')) = true) by
    rcases hu with h | h <;> simp [h])]
  rw [if_neg (show ¬((!(lsame tA 'T') && !(lsame tA 'N')) = true) by
    rcases hA with h | h <;> simp [h])]
  rw [if_neg (show ¬((!(lsame tB 'T') && !(lsame tB 'N')) = true) by
    rcases hB with h | h <;> simp [h])]
  rw [if_neg (show ¬(n < 0) by omega)]
  rw [if_neg (show ¬(k < 0) by omega)]
  rw [if_neg (show ¬(ldA < max 1 (if lsame tA 'N' then n else k)) by omega)]
  rw [if_neg (show ¬(ldB < max 1 (if lsame tB 'N' then k else n)) by omega)]
  rw [if_neg (show ¬(ldC < max 1 n) by omega)]

theorem valid_of_info_eq_zero {uplo tA tB : Char} {n k ldA ldB ldC : Int}
    (h : dgemmt_info uplo tA tB n k ldA ldB ldC = 0) :
    argsValid uplo tA tB n k ldA ldB ldC := by
  simp only [dgemmt_info] at h
  by_cases c1 : (!(lsame uplo 'L') && !(lsame uplo 'U')) = true
  · rw [if_pos c1] at h; simp at h
  rw [if_neg c1] at h
  by_cases c2 : (!(lsame tA 'T') && !(lsame tA 'N')) = true
  · rw [if_pos c2] at h; simp at h
  rw [if_neg c2] at h
  by_cases c3 : (!(lsame tB 'T') && !(lsame tB 'N')) = true
  · rw [if_pos c3] at h; simp at h
  rw [if_neg c3] at h
  by_cases c4 : n < 0
  · rw [if_pos c4] at h; simp at h
  rw [if_neg c4] at h
  by_cases c5 : k < 0
  · rw [if_pos c5] at h; simp at h
  rw [if_neg c5] at h
  by_cases c6 : ldA < max 1 (if lsame tA 'N' then n else k)
  · rw [if_pos c6] at h; simp at h
  rw [if_neg c6] at h
  by_cases c7 : ldB < max 1 (if lsame tB 'N' then k else n)
  · rw [if_pos c7] at h; simp at h
  rw [if_neg c7] at h
  by_cases c8 : ldC < max 1 n
  · rw [if_pos c8] at h; simp at h
  refine ⟨?_, ?_, ?_, by omega, by omega, by omega, by omega, by omega⟩
  · by_cases hl : lsame uplo 'L' = true
    · exact Or.inl hl
    · right
      simp only [Bool.not_eq_true] at hl
      simpa [hl] using c1
  · by_cases hn2 : lsame tA 'N' = true
    · exact Or.inl hn2
    · right
      simp only [Bool.not_eq_true] at hn2
      simpa [hn2] using c2
  · by_cases hn2 : lsame tB 'N' = true
    · exact Or.inl hn2
    · right
      simp only [Bool.not_eq_true] at hn2
      simpa [hn2] using c3

theorem info_eq_zero_iff (uplo tA tB : Char) (n k ldA ldB ldC : Int) :
    dgemmt_info uplo tA tB n k ldA ldB ldC = 0
      ↔ argsValid uplo tA tB n k ldA ldB ldC :=
  ⟨valid_of_info_eq_zero, info_eq_zero_of_valid⟩

theorem entry_invalid (crossover : Nat) (uplo tA tB : Char) (n k : Int)
    (alpha : ℚ) (A : Mem) (ldA : Int) (B : Mem) (ldB : Int) (beta : ℚ)
    (C : Mem) (ldC : Int) (h : dgemmt_info uplo tA tB n k ldA ldB ldC ≠ 0) :
    RELAPACK_dgemmt false crossover uplo tA tB n k alpha A ldA B ldB beta C ldC
      = ([Event.xerbla "DGEMMT" (dgemmt_info uplo tA tB n k ldA ldB ldC)], C) := by
  simp only [RELAPACK_dgemmt, Bool.false_eq_true, if_false]
  rw [if_pos h]

theorem entry_valid (crossover : Nat) (uplo tA tB : Char) (n k : Int)
    (alpha : ℚ) (A : Mem) (ldA : Int) (B : Mem) (ldB : Int) (beta : ℚ)
    (C : Mem) (ldC : Int) (h : dgemmt_info uplo tA tB n k ldA ldB ldC = 0) :
    RELAPACK_dgemmt false crossover uplo tA tB n k alpha A ldA B ldB beta C ldC
      = RELAPACK_dgemmt_rec crossover (if lsame uplo 'L' then 'L' else 'U')
          (if lsame tA 'N' then 'N' else 'T') (if lsame tB 'N' then 'N' else 'T')
          n.toNat k.toNat alpha A 0 ldA.toNat B 0 ldB.toNat beta C 0 ldC.toNat := by
  simp only [RELAPACK_dgemmt, Bool.false_eq_true, if_false]
  rw [if_neg (by simp [h])]

end Relapack

namespace Relapack

/-! ### Properties of the case-insensitive comparator -/

theorem lsame_LU {uplo : Char} (h : lsame uplo 'L' = true) : lsame uplo 'U' = false := by
  unfold lsame at *
  have h2 : uplo.toUpper = 'L' := by
    have h3 : uplo.toUpper = 'L'.toUpper := beq_iff_eq.mp h
    rw [h3]; decide
  rw [h2]; decide

theorem lsame_NT {tA : Char} (h : lsame tA 'N' = true) : lsame tA 'T' = false := by
  unfold lsame at *
  have h2 : tA.toUpper = 'N' := by
    have h3 : tA.toUpper = 'N'.toUpper := beq_iff_eq.mp h
    rw [h3]; decide
  rw [h2]; decide

/-! ### Claim theorems, batch 1 -/

/-- C1: for every valid input (selector characters accepted by the
case-insensitive comparator, n ≥ 0, k ≥ 0, leading dimensions at least their
minima), after the call every entry (i, j) of the selected triangle of C,
diagonal included, equals entry (i, j) of the full dense product
alpha * op(A) * op(B) + beta * C computed over the pre-call C (the reference
value `triVal`). -/
theorem claim_C1 (crossover : Nat) (uplo tA tB : Char) (n k : Int) (alpha : ℚ)
    (A : Mem) (ldA : Int) (B : Mem) (ldB : Int) (beta : ℚ) (C : Mem) (ldC : Int)
    (hv : argsValid uplo tA tB n k ldA ldB ldC) :
    ∀ i j, i < n.toNat → j < n.toNat →
      (if lsame uplo 'L' then j ≤ i else i ≤ j) →
      (RELAPACK_dgemmt false crossover uplo tA tB n k alpha A ldA B ldB beta C ldC).2
          (cellAddr 0 ldC.toNat i j)
        = triVal (if lsame tA 'N' then 'N' else 'T') (if lsame tB 'N' then 'N' else 'T')
            k.toNat alpha A 0 ldA.toNat B 0 ldB.toNat beta C 0 ldC.toNat i j := by
  intro i j hi hj ht
  rw [entry_valid crossover uplo tA tB n k alpha A ldA B ldB beta C ldC
    (info_eq_zero_of_valid hv)]
  have hld : n.toNat ≤ ldC.toNat := by
    have := hv.2.2.2.2.2.2.2
    omega
  refine (rec_spec crossover ?_ ?_ ?_ k.toNat alpha beta A B ldA.toNat ldB.toNat
    ldC.toNat n.toNat hld 0 0 0 C).1 i j hi hj ?_
  · by_cases h : lsame uplo 'L' = true <;> simp [h]
  · by_cases h : lsame tA 'N' = true <;> simp [h]
  · by_cases h : lsame tB 'N' = true <;> simp [h]
  · by_cases h : lsame uplo 'L' = true <;>
      simp only [h, if_true, Bool.false_eq_true, if_false] at ht ⊢ <;>
      simp [triSel, beqLL, beqUL, ht]

/-- C4: for every fixed valid input to the recursive kernel, the result is
independent of the recursion threshold: the threshold forced to 1 (maximal
recursion) agrees with any threshold at least n (recursion disabled), and with
the unblocked kernel itself, on the entire memory. -/
theorem claim_C4 {uplo tA tB : Char} (hu : uplo = 'L' ∨ uplo = 'U')
    (hA : tA = 'N' ∨ tA = 'T') (hB : tB = 'N' ∨ tB = 'T')
    (n k : Nat) (alpha beta : ℚ) (A B : Mem) (oA ldA oB ldB : Nat) (C : Mem)
    (oC ldC : Nat) (hn : n ≤ ldC) :
    (∀ t, n ≤ t →
      (RELAPACK_dgemmt_rec 1 uplo tA tB n k alpha A oA ldA B oB ldB beta C oC ldC).2
        = (RELAPACK_dgemmt_rec t uplo tA tB n k alpha A oA ldA B oB ldB beta C oC ldC).2)
    ∧ (RELAPACK_dgemmt_rec 1 uplo tA tB n k alpha A oA ldA B oB ldB beta C oC ldC).2
        = (RELAPACK_dgemmt_rec2 uplo tA tB n k alpha A oA ldA B oB ldB beta C oC ldC).2 := by
  have key : ∀ c1 c2 : Nat,
      (RELAPACK_dgemmt_rec c1 uplo tA tB n k alpha A oA ldA B oB ldB beta C oC ldC).2
        = (RELAPACK_dgemmt_rec c2 uplo tA tB n k alpha A oA ldA B oB ldB beta C oC ldC).2 := by
    intro c1 c2
    funext p
    by_cases hcell : ∃ i j, i < n ∧ j < n ∧ triSel uplo i j ∧ p = cellAddr oC ldC i j
    · obtain ⟨i, j, hi, hj, ht, rfl⟩ := hcell
      rw [(rec_spec c1 hu hA hB k alpha beta A B ldA ldB ldC n hn oA oB oC C).1 i j hi hj ht,
        (rec_spec c2 hu hA hB k alpha beta A B ldA ldB ldC n hn oA oB oC C).1 i j hi hj ht]
    · have hfr : ∀ i j, i < n → j < n → triSel uplo i j → p ≠ cellAddr oC ldC i j :=
        fun i j h1 h2 h3 heq => hcell ⟨i, j, h1, h2, h3, heq⟩
      rw [(rec_spec c1 hu hA hB k alpha beta A B ldA ldB ldC n hn oA oB oC C).2 p hfr,
        (rec_spec c2 hu hA hB k alpha beta A B ldA ldB ldC n hn oA oB oC C).2 p hfr]
  constructor
  · intro t ht
    exact key 1 t
  · rw [key 1 n,
      rec_base_eq n uplo tA tB n k alpha beta A B C oA ldA oB ldB oC ldC (by omega)]

/-- C9: for every otherwise-valid input with n = 0, the call is a no-op:
no primitive call is issued (empty trace) and C is entirely unchanged. -/
theorem claim_C9 (crossover : Nat) (uplo tA tB : Char) (k : Int) (alpha : ℚ)
    (A : Mem) (ldA : Int) (B : Mem) (ldB : Int) (beta : ℚ) (C : Mem) (ldC : Int)
    (hv : argsValid uplo tA tB 0 k ldA ldB ldC) :
    RELAPACK_dgemmt false crossover uplo tA tB 0 k alpha A ldA B ldB beta C ldC
      = ([], C) := by
  rw [entry_valid crossover uplo tA tB 0 k alpha A ldA B ldB beta C ldC
    (info_eq_zero_of_valid hv)]
  rw [rec_base_eq crossover _ _ _ _ _ alpha beta A B C 0 ldA.toNat 0 ldB.toNat 0
    ldC.toNat (by omega)]
  rfl

/-- C3: for every input with at least one invalid argument, the entry point
invokes the diagnostic collaborator exactly once with the routine name
"DGEMMT" and the info chain value, performs zero writes to C, and invokes no
kernel or dense primitive; the info chain value is nonzero and equals the
1-based parameter index (1, 2, 3, 4, 5, 8, 10, 13) of the first violated
constraint in the fixed scan order (uplo, transA, transB, n, k, ldA, ldB,
ldC). -/
theorem claim_C3 (crossover : Nat) (uplo tA tB : Char) (n k : Int) (alpha : ℚ)
    (A : Mem) (ldA : Int) (B : Mem) (ldB : Int) (beta : ℚ) (C : Mem) (ldC : Int)
    (hv : ¬ argsValid uplo tA tB n k ldA ldB ldC) :
    RELAPACK_dgemmt false crossover uplo tA tB n k alpha A ldA B ldB beta C ldC
      = ([Event.xerbla "DGEMMT" (dgemmt_info uplo tA tB n k ldA ldB ldC)], C)
    ∧ dgemmt_info uplo tA tB n k ldA ldB ldC ≠ 0
    ∧ (¬(lsame uplo 'L' = true ∨ lsame uplo 'U' = true) →
        dgemmt_info uplo tA tB n k ldA ldB ldC = 1)
    ∧ ((lsame uplo 'L' = true ∨ lsame uplo 'U' = true) →
       ¬(lsame tA 'N' = true ∨ lsame tA 'T' = true) →
        dgemmt_info uplo tA tB n k ldA ldB ldC = 2)
    ∧ ((lsame uplo 'L' = true ∨ lsame uplo 'U' = true) →
       (lsame tA 'N' = true ∨ lsame tA 'T' = true) →
       ¬(lsame tB 'N' = true ∨ lsame tB 'T' = true) →
        dgemmt_info uplo tA tB n k ldA ldB ldC = 3)
    ∧ ((lsame uplo 'L' = true ∨ lsame uplo 'U' = true) →
       (lsame tA 'N' = true ∨ lsame tA 'T' = true) →
       (lsame tB 'N' = true ∨ lsame tB 'T' = true) →
       n < 0 →
        dgemmt_info uplo tA tB n k ldA ldB ldC = 4)
    ∧ ((lsame uplo 'L' = true ∨ lsame uplo 'U' = true) →
       (lsame tA 'N' = true ∨ lsame tA 'T' = true) →
       (lsame tB 'N' = true ∨ lsame tB 'T' = true) →
       0 ≤ n → k < 0 →
        dgemmt_info uplo tA tB n k ldA ldB ldC = 5)
    ∧ ((lsame uplo 'L' = true ∨ lsame uplo 'U' = true) →
       (lsame tA 'N' = true ∨ lsame tA 'T' = true) →
       (lsame tB 'N' = true ∨ lsame tB 'T' = true) →
       0 ≤ n → 0 ≤ k → ldA < max 1 (if lsame tA 'N' then n else k) →
        dgemmt_info uplo tA tB n k ldA ldB ldC = 8)
    ∧ ((lsame uplo 'L' = true ∨ lsame uplo 'U' = true) →
       (lsame tA 'N' = true ∨ lsame tA 'T' = true) →
       (lsame tB 'N' = true ∨ lsame tB 'T' = true) →
       0 ≤ n → 0 ≤ k → max 1 (if lsame tA 'N' then n else k) ≤ ldA →
       ldB < max 1 (if lsame tB 'N' then k else n) →
        dgemmt_info uplo tA tB n k ldA ldB ldC = 10)
    ∧ ((lsame uplo 'L' = true ∨ lsame uplo 'U' = true) →
       (lsame tA 'N' = true ∨ lsame tA 'T' = true) →
       (lsame tB 'N' = true ∨ lsame tB 'T' = true) →
       0 ≤ n → 0 ≤ k → max 1 (if lsame tA 'N' then n else k) ≤ ldA →
       max 1 (if lsame tB 'N' then k else n) ≤ ldB → ldC < max 1 n →
        dgemmt_info uplo tA tB n k ldA ldB ldC = 13) := by
  have hinfo : dgemmt_info uplo tA tB n k ldA ldB ldC ≠ 0 :=
    fun h => hv (valid_of_info_eq_zero h)
  refine ⟨entry_invalid crossover uplo tA tB n k alpha A ldA B ldB beta C ldC hinfo,
    hinfo, ?_, ?_, ?_, ?_, ?_, ?_, ?_, ?_⟩
  · intro h1
    simp only [not_or, Bool.not_eq_true] at h1
    simp only [dgemmt_info]
    rw [if_pos (by simp [h1.1, h1.2])]
  · intro h1 h2
    simp only [not_or, Bool.not_eq_true] at h2
    simp only [dgemmt_info]
    rw [if_neg (by rcases h1 with h | h <;> simp [h])]
    rw [if_pos (by simp [h2.1, h2.2])]
  · intro h1 h2 h3
    simp only [not_or, Bool.not_eq_true] at h3
    simp only [dgemmt_info]
    rw [if_neg (by rcases h1 with h | h <;> simp [h])]
    rw [if_neg (by rcases h2 with h | h <;> simp [h])]
    rw [if_pos (by simp [h3.1, h3.2])]
  · intro h1 h2 h3 h4
    simp only [dgemmt_info]
    rw [if_neg (by rcases h1 with h | h <;> simp [h])]
    rw [if_neg (by rcases h2 with h | h <;> simp [h])]
    rw [if_neg (by rcases h3 with h | h <;> simp [h])]
    rw [if_pos h4]
  · intro h1 h2 h3 h4 h5
    simp only [dgemmt_info]
    rw [if_neg (by rcases h1 with h | h <;> simp [h])]
    rw [if_neg (by rcases h2 with h | h <;> simp [h])]
    rw [if_neg (by rcases h3 with h | h <;> simp [h])]
    rw [if_neg (by omega), if_pos h5]
  · intro h1 h2 h3 h4 h5 h6
    simp only [dgemmt_info]
    rw [if_neg (by rcases h1 with h | h <;> simp [h])]
    rw [if_neg (by rcases h2 with h | h <;> simp [h])]
    rw [if_neg (by rcases h3 with h | h <;> simp [h])]
    rw [if_neg (by omega), if_neg (by omega), if_pos h6]
  · intro h1 h2 h3 h4 h5 h6 h7
    simp only [dgemmt_info]
    rw [if_neg (by rcases h1 with h | h <;> simp [h])]
    rw [if_neg (by rcases h2 with h | h <;> simp [h])]
    rw [if_neg (by rcases h3 with h | h <;> simp [h])]
    rw [if_neg (by omega), if_neg (by omega), if_neg (by omega), if_pos h7]
  · intro h1 h2 h3 h4 h5 h6 h7 h8
    simp only [dgemmt_info]
    rw [if_neg (by rcases h1 with h | h <;> simp [h])]
    rw [if_neg (by rcases h2 with h | h <;> simp [h])]
    rw [if_neg (by rcases h3 with h | h <;> simp [h])]
    rw [if_neg (by omega), if_neg (by omega), if_neg (by omega),
      if_neg (by omega), if_pos h8]

/-- C10: selector characters accepted by the case-insensitive comparator
(e.g. lowercase) behave identically to the canonical uppercase characters:
the entire call (trace and memory) is unchanged when uplo is replaced by its
normalization to 'L'/'U' and transA/transB by theirs to 'N'/'T'. -/
theorem claim_C10 (crossover : Nat) (uplo tA tB : Char) (n k : Int) (alpha : ℚ)
    (A : Mem) (ldA : Int) (B : Mem) (ldB : Int) (beta : ℚ) (C : Mem) (ldC : Int)
    (hu : lsame uplo 'L' = true ∨ lsame uplo 'U' = true)
    (hA : lsame tA 'N' = true ∨ lsame tA 'T' = true)
    (hB : lsame tB 'N' = true ∨ lsame tB 'T' = true) :
    RELAPACK_dgemmt false crossover uplo tA tB n k alpha A ldA B ldB beta C ldC
      = RELAPACK_dgemmt false crossover (if lsame uplo 'L' then 'L' else 'U')
          (if lsame tA 'N' then 'N' else 'T') (if lsame tB 'N' then 'N' else 'T')
          n k alpha A ldA B ldB beta C ldC := by
  have gL : lsame (if lsame uplo 'L' then 'L' else 'U') 'L' = lsame uplo 'L' := by
    by_cases h : lsame uplo 'L' = true
    · rw [if_pos h, h]; decide
    · rw [if_neg h]
      simp only [Bool.not_eq_true] at h
      rw [h]; decide
  have gU : lsame (if lsame uplo 'L' then 'L' else 'U') 'U' = lsame uplo 'U' := by
    by_cases h : lsame uplo 'L' = true
    · rw [if_pos h, lsame_LU h]; decide
    · rw [if_neg h]
      have h2 : lsame uplo 'U' = true := hu.resolve_left h
      rw [h2]; decide
  have gN : lsame (if lsame tA 'N' then 'N' else 'T') 'N' = lsame tA 'N' := by
    by_cases h : lsame tA 'N' = true
    · rw [if_pos h, h]; decide
    · rw [if_neg h]
      simp only [Bool.not_eq_true] at h
      rw [h]; decide
  have gT : lsame (if lsame tA 'N' then 'N' else 'T') 'T' = lsame tA 'T' := by
    by_cases h : lsame tA 'N' = true
    · rw [if_pos h, lsame_NT h]; decide
    · rw [if_neg h]
      have h2 : lsame tA 'T' = true := hA.resolve_left h
      rw [h2]; decide
  have gN2 : lsame (if lsame tB 'N' then 'N' else 'T') 'N' = lsame tB 'N' := by
    by_cases h : lsame tB 'N' = true
    · rw [if_pos h, h]; decide
    · rw [if_neg h]
      simp only [Bool.not_eq_true] at h
      rw [h]; decide
  have gT2 : lsame (if lsame tB 'N' then 'N' else 'T') 'T' = lsame tB 'T' := by
    by_cases h : lsame tB 'N' = true
    · rw [if_pos h, lsame_NT h]; decide
    · rw [if_neg h]
      have h2 : lsame tB 'T' = true := hB.resolve_left h
      rw [h2]; decide
  simp only [RELAPACK_dgemmt, dgemmt_info, gL, gU, gN, gT, gN2, gT2,
    Bool.false_eq_true, if_false]

end Relapack

namespace Relapack

/-! ### Trace structure of the recursive kernel -/

theorem rec_step_fst_L (crossover : Nat) (tA tB : Char) (n k : Nat)
    (alpha beta : ℚ) (A B C : Mem) (oA ldA oB ldB oC ldC : Nat)
    (h : ¬ n ≤ max crossover 1) :
    (RELAPACK_dgemmt_rec crossover 'L' tA tB n k alpha A oA ldA B oB ldB beta C oC ldC).1
      = (RELAPACK_dgemmt_rec crossover 'L' tA tB (DREC_SPLIT n) k alpha A oA ldA
            B oB ldB beta C oC ldC).1
        ++ [Event.gemm tA tB (n - DREC_SPLIT n) (DREC_SPLIT n) k alpha
              (oA + (if tA == 'N' then DREC_SPLIT n else ldA * DREC_SPLIT n)) ldA
              oB ldB beta (oC + DREC_SPLIT n) ldC]
        ++ (RELAPACK_dgemmt_rec crossover 'L' tA tB (n - DREC_SPLIT n) k alpha A
              (oA + (if tA == 'N' then DREC_SPLIT n else ldA * DREC_SPLIT n)) ldA B
              (oB + (if tB == 'N' then ldB * DREC_SPLIT n else DREC_SPLIT n)) ldB beta
              (dgemm tA tB (n - DREC_SPLIT n) (DREC_SPLIT n) k alpha A
                (oA + (if tA == 'N' then DREC_SPLIT n else ldA * DREC_SPLIT n)) ldA
                B oB ldB beta
                (RELAPACK_dgemmt_rec crossover 'L' tA tB (DREC_SPLIT n) k alpha A oA
                  ldA B oB ldB beta C oC ldC).2
                (oC + DREC_SPLIT n) ldC)
              (oC + ldC * DREC_SPLIT n + DREC_SPLIT n) ldC).1 := by
  rw [RELAPACK_dgemmt_rec, if_neg h]
  rfl

theorem rec_step_fst_U (crossover : Nat) (tA tB : Char) (n k : Nat)
    (alpha beta : ℚ) (A B C : Mem) (oA ldA oB ldB oC ldC : Nat)
    (h : ¬ n ≤ max crossover 1) :
    (RELAPACK_dgemmt_rec crossover 'U' tA tB n k alpha A oA ldA B oB ldB beta C oC ldC).1
      = (RELAPACK_dgemmt_rec crossover 'U' tA tB (DREC_SPLIT n) k alpha A oA ldA
            B oB ldB beta C oC ldC).1
        ++ [Event.gemm tA tB (DREC_SPLIT n) (n - DREC_SPLIT n) k alpha oA ldA
              (oB + (if tB == 'N' then ldB * DREC_SPLIT n else DREC_SPLIT n)) ldB
              beta (oC + ldC * DREC_SPLIT n) ldC]
        ++ (RELAPACK_dgemmt_rec crossover 'U' tA tB (n - DREC_SPLIT n) k alpha A
              (oA + (if tA == 'N' then DREC_SPLIT n else ldA * DREC_SPLIT n)) ldA B
              (oB + (if tB == 'N' then ldB * DREC_SPLIT n else DREC_SPLIT n)) ldB beta
              (dgemm tA tB (DREC_SPLIT n) (n - DREC_SPLIT n) k alpha A oA ldA B
                (oB + (if tB == 'N' then ldB * DREC_SPLIT n else DREC_SPLIT n)) ldB beta
                (RELAPACK_dgemmt_rec crossover 'U' tA tB (DREC_SPLIT n) k alpha A oA
                  ldA B oB ldB beta C oC ldC).2
                (oC + ldC * DREC_SPLIT n) ldC)
              (oC + ldC * DREC_SPLIT n + DREC_SPLIT n) ldC).1 := by
  rw [RELAPACK_dgemmt_rec, if_neg h]
  rfl

/-- The event trace of the recursive kernel does not depend on the contents
of C (events record only sizes, scalars and offsets). -/
theorem rec_fst_mem_indep (crossover : Nat) {uplo : Char}
    (hu : uplo = 'L' ∨ uplo = 'U') (tA tB : Char) (k : Nat) (alpha beta : ℚ)
    (A B : Mem) (ldA ldB ldC : Nat) :
    ∀ n oA oB oC (C D : Mem),
      (RELAPACK_dgemmt_rec crossover uplo tA tB n k alpha A oA ldA B oB ldB beta C oC ldC).1
        = (RELAPACK_dgemmt_rec crossover uplo tA tB n k alpha A oA ldA B oB ldB beta D oC ldC).1 := by
  intro n
  induction n using Nat.strong_induction_on with
  | _ n ih =>
  intro oA oB oC C D
  by_cases hbase : n ≤ max crossover 1
  · rw [rec_base_eq crossover uplo tA tB n k alpha beta A B C oA ldA oB ldB oC ldC hbase,
      rec_base_eq crossover uplo tA tB n k alpha beta A B D oA ldA oB ldB oC ldC hbase,
      rec2_fst, rec2_fst]
  · have hn1 : 0 < DREC_SPLIT n ∧ DREC_SPLIT n < n := by unfold DREC_SPLIT; omega
    rcases hu with rfl | rfl
    · rw [rec_step_fst_L crossover tA tB n k alpha beta A B C oA ldA oB ldB oC ldC hbase,
        rec_step_fst_L crossover tA tB n k alpha beta A B D oA ldA oB ldB oC ldC hbase,
        ih (DREC_SPLIT n) (by omega) oA oB oC C D,
        ih (n - DREC_SPLIT n) (by omega) _ _ _
          (dgemm tA tB (n - DREC_SPLIT n) (DREC_SPLIT n) k alpha A
            (oA + (if tA == 'N' then DREC_SPLIT n else ldA * DREC_SPLIT n)) ldA
            B oB ldB beta
            (RELAPACK_dgemmt_rec crossover 'L' tA tB (DREC_SPLIT n) k alpha A oA
              ldA B oB ldB beta C oC ldC).2
            (oC + DREC_SPLIT n) ldC)
          (dgemm tA tB (n - DREC_SPLIT n) (DREC_SPLIT n) k alpha A
            (oA + (if tA == 'N' then DREC_SPLIT n else ldA * DREC_SPLIT n)) ldA
            B oB ldB beta
            (RELAPACK_dgemmt_rec crossover 'L' tA tB (DREC_SPLIT n) k alpha A oA
              ldA B oB ldB beta D oC ldC).2
            (oC + DREC_SPLIT n) ldC)]
    · rw [rec_step_fst_U crossover tA tB n k alpha beta A B C oA ldA oB ldB oC ldC hbase,
        rec_step_fst_U crossover tA tB n k alpha beta A B D oA ldA oB ldB oC ldC hbase,
        ih (DREC_SPLIT n) (by omega) oA oB oC C D,
        ih (n - DREC_SPLIT n) (by omega) _ _ _
          (dgemm tA tB (DREC_SPLIT n) (n - DREC_SPLIT n) k alpha A oA ldA B
            (oB + (if tB == 'N' then ldB * DREC_SPLIT n else DREC_SPLIT n)) ldB beta
            (RELAPACK_dgemmt_rec crossover 'U' tA tB (DREC_SPLIT n) k alpha A oA
              ldA B oB ldB beta C oC ldC).2
            (oC + ldC * DREC_SPLIT n) ldC)
          (dgemm tA tB (DREC_SPLIT n) (n - DREC_SPLIT n) k alpha A oA ldA B
            (oB + (if tB == 'N' then ldB * DREC_SPLIT n else DREC_SPLIT n)) ldB beta
            (RELAPACK_dgemmt_rec crossover 'U' tA tB (DREC_SPLIT n) k alpha A oA
              ldA B oB ldB beta D oC ldC).2
            (oC + ldC * DREC_SPLIT n) ldC)]

end Relapack

namespace Relapack

/-- The write set of the i-th `dgemv` event of the unblocked kernel: exactly
the rows rowLo..rowHi-1 of column j of C. -/
theorem rec2Ev_writes_iff {uplo tA : Char} (hu : uplo = 'L' ∨ uplo = 'U')
    (hA : tA = 'N' ∨ tA = 'T') (tB : Char) (n k : Nat) (alpha beta : ℚ)
    (oA ldA oB ldB oC ldC : Nat) (j : Nat) (p : Nat) :
    eventWritesB (rec2Ev uplo tA tB n k alpha oA ldA oB ldB beta oC ldC j) p = true
      ↔ ∃ r, rowLo uplo j ≤ r ∧ r < rowHi uplo n j ∧ p = cellAddr oC ldC r j := by
  rcases hu with rfl | rfl <;> rcases hA with rfl | rfl
  · simp only [rec2Ev, beqLL, beqNN, if_true, rowLo, rowHi]
    rw [gemv_writesB_iff]
    simp only [beqNN, if_true]
    constructor
    · rintro ⟨d, hd, rfl⟩
      exact ⟨j + d, by omega, by omega, by unfold cellAddr; omega⟩
    · rintro ⟨r, h1, h2, rfl⟩
      exact ⟨r - j, by omega, by unfold cellAddr; omega⟩
  · simp only [rec2Ev, beqLL, if_true, beqTN, Bool.false_eq_true, if_false, rowLo, rowHi]
    rw [gemv_writesB_iff]
    simp only [beqTN, Bool.false_eq_true, if_false]
    constructor
    · rintro ⟨d, hd, rfl⟩
      exact ⟨j + d, by omega, by omega, by unfold cellAddr; omega⟩
    · rintro ⟨r, h1, h2, rfl⟩
      exact ⟨r - j, by omega, by unfold cellAddr; omega⟩
  · simp only [rec2Ev, beqUL, Bool.false_eq_true, if_false, beqNN, if_true, rowLo, rowHi]
    rw [gemv_writesB_iff]
    simp only [beqNN, if_true]
    constructor
    · rintro ⟨d, hd, rfl⟩
      exact ⟨d, by omega, by omega, by unfold cellAddr; omega⟩
    · rintro ⟨r, h1, h2, rfl⟩
      exact ⟨r, by omega, by unfold cellAddr; omega⟩
  · simp only [rec2Ev, beqUL, beqTN, Bool.false_eq_true, if_false, rowLo, rowHi]
    rw [gemv_writesB_iff]
    simp only [beqTN, Bool.false_eq_true, if_false]
    constructor
    · rintro ⟨d, hd, rfl⟩
      exact ⟨d, by omega, by omega, by unfold cellAddr; omega⟩
    · rintro ⟨r, h1, h2, rfl⟩
      exact ⟨r, by omega, by unfold cellAddr; omega⟩

theorem countP_range_one {q : Nat → Bool} : ∀ {n j0 : Nat}, j0 < n →
    (∀ j, j < n → (q j = true ↔ j = j0)) → (List.range n).countP q = 1 := by
  intro n
  induction n with
  | zero => intro j0 h; omega
  | succ m ih =>
      intro j0 h0 hq
      rw [List.range_succ, List.countP_append]
      by_cases hj : j0 = m
      · have hz : (List.range m).countP q = 0 := List.countP_eq_zero.mpr
          (fun a ha hqa => by
            rw [List.mem_range] at ha
            have h2 := (hq a (by omega)).mp hqa
            omega)
        have hqm : q m = true := (hq m (by omega)).mpr hj.symm
        simp [hz, List.countP_cons, hqm]
      · have h1 : (List.range m).countP q = 1 := ih (by omega)
          (fun j hj2 => hq j (by omega))
        have hqm : q m = false := by
          cases hqm2 : q m
          · rfl
          · exact absurd ((hq m (by omega)).mp hqm2) (fun he => hj he.symm)
        simp [h1, List.countP_cons, hqm]

/-- In the unblocked kernel, each cell of the selected triangle is written by
exactly one `dgemv` call and each other address by none. -/
theorem rec2_count {uplo tA tB : Char} (hu : uplo = 'L' ∨ uplo = 'U')
    (hA : tA = 'N' ∨ tA = 'T') (n k : Nat) (alpha beta : ℚ) (A B : Mem)
    (oA ldA oB ldB : Nat) (C : Mem) (oC ldC : Nat) (hn : n ≤ ldC) (p : Nat) :
    (isTriCell uplo n oC ldC p →
      ((RELAPACK_dgemmt_rec2 uplo tA tB n k alpha A oA ldA B oB ldB beta C oC ldC).1.countP
        (fun ev => eventWritesB ev p)) = 1)
    ∧ (¬ isTriCell uplo n oC ldC p →
      ((RELAPACK_dgemmt_rec2 uplo tA tB n k alpha A oA ldA B oB ldB beta C oC ldC).1.countP
        (fun ev => eventWritesB ev p)) = 0) := by
  rw [rec2_fst, List.countP_map]
  constructor
  · rintro ⟨i0, j0, hi0, hj0, ht0, rfl⟩
    refine countP_range_one hj0 (fun j hj2 => ?_)
    constructor
    · intro hq
      obtain ⟨r, h1, h2, heq⟩ :=
        (rec2Ev_writes_iff hu hA tB n k alpha beta oA ldA oB ldB oC ldC j _).mp hq
      have hrn : r < n := row_lt_n hj2 h2
      obtain ⟨he1, he2⟩ := cellAddr_inj (by omega) (by omega) heq
      omega
    · intro he
      subst he
      exact (rec2Ev_writes_iff hu hA tB n k alpha beta oA ldA oB ldB oC ldC j _).mpr
        ⟨i0, ((triSel_rows hi0).mp ht0).1, ((triSel_rows hi0).mp ht0).2, rfl⟩
  · intro hnot
    refine List.countP_eq_zero.mpr (fun j hj2 hq => ?_)
    rw [List.mem_range] at hj2
    obtain ⟨r, h1, h2, heq⟩ :=
      (rec2Ev_writes_iff hu hA tB n k alpha beta oA ldA oB ldB oC ldC j p).mp hq
    have hrn : r < n := row_lt_n hj2 h2
    exact hnot ⟨r, j, hrn, hj2, (triSel_rows hrn).mpr ⟨h1, h2⟩, heq⟩

end Relapack

namespace Relapack

/-- In the recursive kernel, each cell of the selected triangle is written by
exactly one primitive call (dgemm or dgemv) over the whole trace, and each
other address by none: the write regions of the issued primitive calls are
pairwise disjoint and cover exactly the selected triangle. -/
theorem rec_count (crossover : Nat) {uplo tA tB : Char} (hu : uplo = 'L' ∨ uplo = 'U')
    (hA : tA = 'N' ∨ tA = 'T') (k : Nat) (alpha beta : ℚ) (A B : Mem)
    (ldA ldB ldC : Nat) :
    ∀ n, n ≤ ldC → ∀ oA oB oC (C : Mem) (p : Nat),
      (isTriCell uplo n oC ldC p →
        ((RELAPACK_dgemmt_rec crossover uplo tA tB n k alpha A oA ldA B oB ldB beta
            C oC ldC).1.countP (fun ev => eventWritesB ev p)) = 1)
      ∧ (¬ isTriCell uplo n oC ldC p →
        ((RELAPACK_dgemmt_rec crossover uplo tA tB n k alpha A oA ldA B oB ldB beta
            C oC ldC).1.countP (fun ev => eventWritesB ev p)) = 0) := by
  intro n
  induction n using Nat.strong_induction_on with
  | _ n ih =>
  intro hn oA oB oC C p
  by_cases hbase : n ≤ max crossover 1
  · rw [rec_base_eq crossover uplo tA tB n k alpha beta A B C oA ldA oB ldB oC ldC hbase]
    exact rec2_count hu hA n k alpha beta A B oA ldA oB ldB C oC ldC hn p
  · have h2n : 2 ≤ n := by omega
    rcases hu with rfl | rfl
    · -- LOWER
      rw [rec_step_fst_L crossover tA tB n k alpha beta A B C oA ldA oB ldB oC ldC hbase]
      set n1 := DREC_SPLIT n with hn1d
      have hn1 : 0 < n1 ∧ n1 < n := by rw [hn1d]; unfold DREC_SPLIT; omega
      set oAB := oA + (if tA == 'N' then n1 else ldA * n1) with hoAB
      set oBR := oB + (if tB == 'N' then ldB * n1 else n1) with hoBR
      set M1 := (RELAPACK_dgemmt_rec crossover 'L' tA tB n1 k alpha A oA ldA
        B oB ldB beta C oC ldC).2 with hM1
      set M2 := dgemm tA tB (n - n1) n1 k alpha A oAB ldA B oB ldB beta M1
        (oC + n1) ldC with hM2
      have h1 := ih n1 (by omega) (by omega) oA oB oC C p
      have h3 := ih (n - n1) (by omega) (by omega) oAB oBR (oC + ldC * n1 + n1) M2 p
      set ev := Event.gemm tA tB (n - n1) n1 k alpha oAB ldA oB ldB beta (oC + n1) ldC
        with hev
      have hgiff := @gemm_writesB_iff tA tB (n - n1) n1 k alpha oAB ldA oB ldB beta
        (oC + n1) ldC p (by omega)
      rw [List.countP_append, List.countP_append]
      have hsing : ([ev].countP (fun e => eventWritesB e p))
          = if eventWritesB ev p = true then 1 else 0 := by
        simp [List.countP_cons]
      constructor
      · rintro ⟨i, j, hi, hj, ht, rfl⟩
        simp only [triSel, beqLL, if_true] at ht
        by_cases hi1 : i < n1
        · have hj1 : j < n1 := by omega
          have c1 := h1.1 ⟨i, j, hi1, hj1,
            by simp only [triSel, beqLL, if_true]; omega, rfl⟩
          have cg : eventWritesB ev (cellAddr oC ldC i j) = false := by
            cases hw : eventWritesB ev (cellAddr oC ldC i j)
            · rfl
            · obtain ⟨a, b, ha, hb, heq⟩ := hgiff.mp hw
              rw [cellAddr_shift_row] at heq
              obtain ⟨he1, he2⟩ := cellAddr_inj (by omega) (by omega) heq
              omega
          have c3 := h3.2 (fun hcell => by
            obtain ⟨a, b, ha, hb, htt, heq⟩ := hcell
            rw [cellAddr_shift_diag] at heq
            obtain ⟨he1, he2⟩ := cellAddr_inj (by omega) (by omega) heq
            omega)
          rw [c1, c3, hsing, cg]
          simp
        · by_cases hj1 : j < n1
          · -- bottom-left block cell: the dgemm call alone writes it
            have c1 := h1.2 (fun hcell => by
              obtain ⟨a, b, ha, hb, htt, heq⟩ := hcell
              obtain ⟨he1, he2⟩ := cellAddr_inj (by omega) (by omega) heq
              omega)
            have cg : eventWritesB ev (cellAddr oC ldC i j) = true := hgiff.mpr
              ⟨i - n1, j, by omega, hj1,
                by rw [cellAddr_shift_row]; congr 1; omega⟩
            have c3 := h3.2 (fun hcell => by
              obtain ⟨a, b, ha, hb, htt, heq⟩ := hcell
              rw [cellAddr_shift_diag] at heq
              obtain ⟨he1, he2⟩ := cellAddr_inj (by omega) (by omega) heq
              omega)
            rw [c1, c3, hsing, cg]
            simp
          · -- bottom-right quadrant cell
            have c1 := h1.2 (fun hcell => by
              obtain ⟨a, b, ha, hb, htt, heq⟩ := hcell
              obtain ⟨he1, he2⟩ := cellAddr_inj (by omega) (by omega) heq
              omega)
            have cg : eventWritesB ev (cellAddr oC ldC i j) = false := by
              cases hw : eventWritesB ev (cellAddr oC ldC i j)
              · rfl
              · obtain ⟨a, b, ha, hb, heq⟩ := hgiff.mp hw
                rw [cellAddr_shift_row] at heq
                obtain ⟨he1, he2⟩ := cellAddr_inj (by omega) (by omega) heq
                omega
            have c3 := h3.1 ⟨i - n1, j - n1, by omega, by omega,
              by simp only [triSel, beqLL, if_true]; omega,
              by rw [cellAddr_shift_diag]; congr 1 <;> omega⟩
            rw [c1, c3, hsing, cg]
            simp
      · intro hnot
        have c1 := h1.2 (fun hcell => by
          obtain ⟨a, b, ha, hb, htt, heq⟩ := hcell
          exact hnot ⟨a, b, by omega, by omega, htt, heq⟩)
        have cg : eventWritesB ev p = false := by
          cases hw : eventWritesB ev p
          · rfl
          · obtain ⟨a, b, ha, hb, heq⟩ := hgiff.mp hw
            rw [cellAddr_shift_row] at heq
            exact (hnot ⟨n1 + a, b, by omega, by omega,
              by simp only [triSel, beqLL, if_true]; omega, heq⟩).elim
        have c3 := h3.2 (fun hcell => by
          obtain ⟨a, b, ha, hb, htt, heq⟩ := hcell
          simp only [triSel, beqLL, if_true] at htt
          rw [cellAddr_shift_diag] at heq
          exact hnot ⟨n1 + a, n1 + b, by omega, by omega,
            by simp only [triSel, beqLL, if_true]; omega, heq⟩)
        rw [c1, c3, hsing, cg]
        simp
    · -- UPPER
      rw [rec_step_fst_U crossover tA tB n k alpha beta A B C oA ldA oB ldB oC ldC hbase]
      set n1 := DREC_SPLIT n with hn1d
      have hn1 : 0 < n1 ∧ n1 < n := by rw [hn1d]; unfold DREC_SPLIT; omega
      set oAB := oA + (if tA == 'N' then n1 else ldA * n1) with hoAB
      set oBR := oB + (if tB == 'N' then ldB * n1 else n1) with hoBR
      set M1 := (RELAPACK_dgemmt_rec crossover 'U' tA tB n1 k alpha A oA ldA
        B oB ldB beta C oC ldC).2 with hM1
      set M2 := dgemm tA tB n1 (n - n1) k alpha A oA ldA B oBR ldB beta M1
        (oC + ldC * n1) ldC with hM2
      have h1 := ih n1 (by omega) (by omega) oA oB oC C p
      have h3 := ih (n - n1) (by omega) (by omega) oAB oBR (oC + ldC * n1 + n1) M2 p
      set ev := Event.gemm tA tB n1 (n - n1) k alpha oA ldA oBR ldB beta
        (oC + ldC * n1) ldC with hev
      have hgiff := @gemm_writesB_iff tA tB n1 (n - n1) k alpha oA ldA oBR ldB beta
        (oC + ldC * n1) ldC p (by omega)
      rw [List.countP_append, List.countP_append]
      have hsing : ([ev].countP (fun e => eventWritesB e p))
          = if eventWritesB ev p = true then 1 else 0 := by
        simp [List.countP_cons]
      constructor
      · rintro ⟨i, j, hi, hj, ht, rfl⟩
        simp only [triSel, beqUL, Bool.false_eq_true, if_false] at ht
        by_cases hj1 : j < n1
        · have hi1 : i < n1 := by omega
          have c1 := h1.1 ⟨i, j, hi1, hj1,
            by simp only [triSel, beqUL, Bool.false_eq_true, if_false]; omega, rfl⟩
          have cg : eventWritesB ev (cellAddr oC ldC i j) = false := by
            cases hw : eventWritesB ev (cellAddr oC ldC i j)
            · rfl
            · obtain ⟨a, b, ha, hb, heq⟩ := hgiff.mp hw
              rw [cellAddr_shift_col] at heq
              obtain ⟨he1, he2⟩ := cellAddr_inj (by omega) (by omega) heq
              omega
          have c3 := h3.2 (fun hcell => by
            obtain ⟨a, b, ha, hb, htt, heq⟩ := hcell
            rw [cellAddr_shift_diag] at heq
            obtain ⟨he1, he2⟩ := cellAddr_inj (by omega) (by omega) heq
            omega)
          rw [c1, c3, hsing, cg]
          simp
        · by_cases hi1 : i < n1
          · -- top-right block cell: the dgemm call alone writes it
            have c1 := h1.2 (fun hcell => by
              obtain ⟨a, b, ha, hb, htt, heq⟩ := hcell
              obtain ⟨he1, he2⟩ := cellAddr_inj (by omega) (by omega) heq
              omega)
            have cg : eventWritesB ev (cellAddr oC ldC i j) = true := hgiff.mpr
              ⟨i, j - n1, hi1, by omega,
                by rw [cellAddr_shift_col]; congr 1; omega⟩
            have c3 := h3.2 (fun hcell => by
              obtain ⟨a, b, ha, hb, htt, heq⟩ := hcell
              rw [cellAddr_shift_diag] at heq
              obtain ⟨he1, he2⟩ := cellAddr_inj (by omega) (by omega) heq
              omega)
            rw [c1, c3, hsing, cg]
            simp
          · -- bottom-right quadrant cell
            have c1 := h1.2 (fun hcell => by
              obtain ⟨a, b, ha, hb, htt, heq⟩ := hcell
              obtain ⟨he1, he2⟩ := cellAddr_inj (by omega) (by omega) heq
              omega)
            have cg : eventWritesB ev (cellAddr oC ldC i j) = false := by
              cases hw : eventWritesB ev (cellAddr oC ldC i j)
              · rfl
              · obtain ⟨a, b, ha, hb, heq⟩ := hgiff.mp hw
                rw [cellAddr_shift_col] at heq
                obtain ⟨he1, he2⟩ := cellAddr_inj (by omega) (by omega) heq
                omega
            have c3 := h3.1 ⟨i - n1, j - n1, by omega, by omega,
              by simp only [triSel, beqUL, Bool.false_eq_true, if_false]; omega,
              by rw [cellAddr_shift_diag]; congr 1 <;> omega⟩
            rw [c1, c3, hsing, cg]
            simp
      · intro hnot
        have c1 := h1.2 (fun hcell => by
          obtain ⟨a, b, ha, hb, htt, heq⟩ := hcell
          exact hnot ⟨a, b, by omega, by omega, htt, heq⟩)
        have cg : eventWritesB ev p = false := by
          cases hw : eventWritesB ev p
          · rfl
          · obtain ⟨a, b, ha, hb, heq⟩ := hgiff.mp hw
            rw [cellAddr_shift_col] at heq
            exact (hnot ⟨a, n1 + b, by omega, by omega,
              by simp only [triSel, beqUL, Bool.false_eq_true, if_false]; omega, heq⟩).elim
        have c3 := h3.2 (fun hcell => by
          obtain ⟨a, b, ha, hb, htt, heq⟩ := hcell
          simp only [triSel, beqUL, Bool.false_eq_true, if_false] at htt
          rw [cellAddr_shift_diag] at heq
          exact hnot ⟨n1 + a, n1 + b, by omega, by omega,
            by simp only [triSel, beqUL, Bool.false_eq_true, if_false]; omega, heq⟩)
        rw [c1, c3, hsing, cg]
        simp

end Relapack

namespace Relapack

/-- C8: for every valid input, the write regions of the primitive calls
(dgemm and dgemv) issued over the whole call are pairwise disjoint and cover
exactly the selected triangle: each cell of the selected triangle is
read/updated by exactly one primitive call (so alpha and beta are applied to
it exactly once), and every other address by none. -/
theorem claim_C8 (crossover : Nat) (uplo tA tB : Char) (n k : Int) (alpha : ℚ)
    (A : Mem) (ldA : Int) (B : Mem) (ldB : Int) (beta : ℚ) (C : Mem) (ldC : Int)
    (hv : argsValid uplo tA tB n k ldA ldB ldC) :
    ∀ p : Nat,
      (isTriCell (if lsame uplo 'L' then 'L' else 'U') n.toNat 0 ldC.toNat p →
        ((RELAPACK_dgemmt false crossover uplo tA tB n k alpha A ldA B ldB beta
            C ldC).1.countP (fun ev => eventWritesB ev p)) = 1)
      ∧ (¬ isTriCell (if lsame uplo 'L' then 'L' else 'U') n.toNat 0 ldC.toNat p →
        ((RELAPACK_dgemmt false crossover uplo tA tB n k alpha A ldA B ldB beta
            C ldC).1.countP (fun ev => eventWritesB ev p)) = 0) := by
  intro p
  rw [entry_valid crossover uplo tA tB n k alpha A ldA B ldB beta C ldC
    (info_eq_zero_of_valid hv)]
  have hld : n.toNat ≤ ldC.toNat := by
    have := hv.2.2.2.2.2.2.2
    omega
  exact rec_count crossover
    (by by_cases h : lsame uplo 'L' = true <;> simp [h])
    (by by_cases h : lsame tA 'N' = true <;> simp [h])
    k.toNat alpha beta A B ldA.toNat ldB.toNat ldC.toNat n.toNat hld 0 0 0 C p

/-- C2: for every valid input, every entry of C strictly outside the selected
triangle (strictly above the diagonal when the triangle is lower, strictly
below when it is upper) is unchanged after the call, and no event of the
trace (no dense matrix-matrix or matrix-vector call) writes its address. -/
theorem claim_C2 (crossover : Nat) (uplo tA tB : Char) (n k : Int) (alpha : ℚ)
    (A : Mem) (ldA : Int) (B : Mem) (ldB : Int) (beta : ℚ) (C : Mem) (ldC : Int)
    (hv : argsValid uplo tA tB n k ldA ldB ldC) :
    ∀ i j, i < n.toNat → j < n.toNat →
      (if lsame uplo 'L' then i < j else j < i) →
      ((RELAPACK_dgemmt false crossover uplo tA tB n k alpha A ldA B ldB beta
          C ldC).2 (cellAddr 0 ldC.toNat i j) = C (cellAddr 0 ldC.toNat i j)
       ∧ ∀ ev ∈ (RELAPACK_dgemmt false crossover uplo tA tB n k alpha A ldA B ldB
            beta C ldC).1, eventWritesB ev (cellAddr 0 ldC.toNat i j) = false) := by
  intro i j hi hj hout
  have hld : n.toNat ≤ ldC.toNat := by
    have := hv.2.2.2.2.2.2.2
    omega
  have hnotcell : ¬ isTriCell (if lsame uplo 'L' then 'L' else 'U')
      n.toNat 0 ldC.toNat (cellAddr 0 ldC.toNat i j) := by
    rintro ⟨a, b, ha, hb, htt, heq⟩
    obtain ⟨he1, he2⟩ := cellAddr_inj (by omega) (by omega) heq.symm
    by_cases hL : lsame uplo 'L' = true
    · rw [if_pos hL] at htt
      rw [hL] at hout
      simp only [triSel, beqLL, if_true] at htt
      simp only [if_true] at hout
      omega
    · rw [if_neg hL] at htt
      simp only [Bool.not_eq_true] at hL
      rw [hL] at hout
      simp only [triSel, beqUL, Bool.false_eq_true, if_false] at htt hout
      omega
  constructor
  · rw [entry_valid crossover uplo tA tB n k alpha A ldA B ldB beta C ldC
      (info_eq_zero_of_valid hv)]
    exact (rec_spec crossover
      (by by_cases h : lsame uplo 'L' = true <;> simp [h])
      (by by_cases h : lsame tA 'N' = true <;> simp [h])
      (by by_cases h : lsame tB 'N' = true <;> simp [h])
      k.toNat alpha beta A B ldA.toNat ldB.toNat ldC.toNat n.toNat hld 0 0 0 C).2
      _ (fun a b ha hb htt heq => hnotcell ⟨a, b, ha, hb, htt, heq⟩)
  · rw [entry_valid crossover uplo tA tB n k alpha A ldA B ldB beta C ldC
      (info_eq_zero_of_valid hv)]
    intro ev hev
    have hcount := (@rec_count crossover (if lsame uplo 'L' then 'L' else 'U')
      (if lsame tA 'N' then 'N' else 'T') (if lsame tB 'N' then 'N' else 'T')
      (by by_cases h : lsame uplo 'L' = true <;> simp [h])
      (by by_cases h : lsame tA 'N' = true <;> simp [h])
      k.toNat alpha beta A B ldA.toNat ldB.toNat ldC.toNat n.toNat hld 0 0 0 C
      (cellAddr 0 ldC.toNat i j)).2 hnotcell
    have hz := List.countP_eq_zero.mp hcount ev hev
    cases h : eventWritesB ev (cellAddr 0 ldC.toNat i j)
    · rfl
    · exact absurd h hz

end Relapack

namespace Relapack

/-- C5: whenever n exceeds the (minimum-1-clamped) threshold, the recursive
kernel performs exactly three sub-operations in order: a recursive call on the
n1-by-n1 top-left quadrant (top block of A, left block of B), one dense
matrix-matrix multiply writing in full — with no triangular masking — the
n2-by-n1 bottom-left block (lower) or the n1-by-n2 top-right block (upper),
and a recursive call on the n2-by-n2 bottom-right quadrant (bottom block of A,
right block of B), where n1 = DREC_SPLIT n and n2 = n - n1; and the block
written by the dense call lies entirely within the selected triangle. -/
theorem claim_C5 (crossover : Nat) {uplo tA tB : Char} (hu : uplo = 'L' ∨ uplo = 'U')
    (hA : tA = 'N' ∨ tA = 'T') (hB : tB = 'N' ∨ tB = 'T')
    (n k : Nat) (alpha beta : ℚ) (A B : Mem) (oA ldA oB ldB : Nat) (C : Mem)
    (oC ldC : Nat) (hn : n ≤ ldC) (hgt : max crossover 1 < n) :
    (RELAPACK_dgemmt_rec crossover uplo tA tB n k alpha A oA ldA B oB ldB beta C oC ldC).1
      = (RELAPACK_dgemmt_rec crossover uplo tA tB (DREC_SPLIT n) k alpha A oA ldA
            B oB ldB beta C oC ldC).1
        ++ [if uplo == 'L' then
              Event.gemm tA tB (n - DREC_SPLIT n) (DREC_SPLIT n) k alpha
                (oA + (if tA == 'N' then DREC_SPLIT n else ldA * DREC_SPLIT n)) ldA
                oB ldB beta (oC + DREC_SPLIT n) ldC
            else
              Event.gemm tA tB (DREC_SPLIT n) (n - DREC_SPLIT n) k alpha oA ldA
                (oB + (if tB == 'N' then ldB * DREC_SPLIT n else DREC_SPLIT n)) ldB
                beta (oC + ldC * DREC_SPLIT n) ldC]
        ++ (RELAPACK_dgemmt_rec crossover uplo tA tB (n - DREC_SPLIT n) k alpha A
              (oA + (if tA == 'N' then DREC_SPLIT n else ldA * DREC_SPLIT n)) ldA B
              (oB + (if tB == 'N' then ldB * DREC_SPLIT n else DREC_SPLIT n)) ldB beta
              C (oC + ldC * DREC_SPLIT n + DREC_SPLIT n) ldC).1
    ∧ (∀ p, eventWritesB
          (if uplo == 'L' then
            Event.gemm tA tB (n - DREC_SPLIT n) (DREC_SPLIT n) k alpha
              (oA + (if tA == 'N' then DREC_SPLIT n else ldA * DREC_SPLIT n)) ldA
              oB ldB beta (oC + DREC_SPLIT n) ldC
          else
            Event.gemm tA tB (DREC_SPLIT n) (n - DREC_SPLIT n) k alpha oA ldA
              (oB + (if tB == 'N' then ldB * DREC_SPLIT n else DREC_SPLIT n)) ldB
              beta (oC + ldC * DREC_SPLIT n) ldC) p = true →
        isTriCell uplo n oC ldC p) := by
  have hbase : ¬ n ≤ max crossover 1 := by omega
  have hn1 : 0 < DREC_SPLIT n ∧ DREC_SPLIT n < n := by unfold DREC_SPLIT; omega
  rcases hu with rfl | rfl
  · simp only [beqLL, if_true]
    constructor
    · rw [rec_step_fst_L crossover tA tB n k alpha beta A B C oA ldA oB ldB oC ldC hbase]
      rw [rec_fst_mem_indep crossover (Or.inl rfl) tA tB k alpha beta A B ldA ldB ldC
        (n - DREC_SPLIT n) _ _ _ _ C]
    · intro p hw
      obtain ⟨a, b, ha, hb, heq⟩ := (@gemm_writesB_iff tA tB (n - DREC_SPLIT n)
        (DREC_SPLIT n) k alpha _ ldA oB ldB beta (oC + DREC_SPLIT n) ldC p
        (by omega)).mp hw
      rw [cellAddr_shift_row] at heq
      exact ⟨DREC_SPLIT n + a, b, by omega, by omega,
        by simp only [triSel, beqLL, if_true]; omega, heq⟩
  · simp only [beqUL, Bool.false_eq_true, if_false]
    constructor
    · rw [rec_step_fst_U crossover tA tB n k alpha beta A B C oA ldA oB ldB oC ldC hbase]
      rw [rec_fst_mem_indep crossover (Or.inr rfl) tA tB k alpha beta A B ldA ldB ldC
        (n - DREC_SPLIT n) _ _ _ _ C]
    · intro p hw
      obtain ⟨a, b, ha, hb, heq⟩ := (@gemm_writesB_iff tA tB (DREC_SPLIT n)
        (n - DREC_SPLIT n) k alpha oA ldA _ ldB beta (oC + ldC * DREC_SPLIT n) ldC p
        (by omega)).mp hw
      rw [cellAddr_shift_col] at heq
      exact ⟨a, DREC_SPLIT n + b, by omega, by omega,
        by simp only [triSel, beqUL, Bool.false_eq_true, if_false]; omega, heq⟩

/-- C6: the unblocked kernel issues exactly n matrix-vector multiply calls,
one per index i from 0 to n-1; call i is a `gemv` with unit output stride and
B-operand stride 1 when transB is as-given and ldB when transposed, and it
writes exactly the column segment C[i..n-1, i] (lower) resp. C[0..i, i]
(upper). -/
theorem claim_C6 {uplo tA tB : Char} (hu : uplo = 'L' ∨ uplo = 'U')
    (hA : tA = 'N' ∨ tA = 'T') (hB : tB = 'N' ∨ tB = 'T')
    (n k : Nat) (alpha beta : ℚ) (A B : Mem) (oA ldA oB ldB : Nat) (C : Mem)
    (oC ldC : Nat) :
    ((RELAPACK_dgemmt_rec2 uplo tA tB n k alpha A oA ldA B oB ldB beta C oC ldC).1.length = n)
    ∧ (∀ i, i < n → ∀ ev,
        ((RELAPACK_dgemmt_rec2 uplo tA tB n k alpha A oA ldA B oB ldB beta C oC ldC).1)[i]?
          = some ev →
        ev.isGemv = true ∧ ev.gemvIncy = 1
        ∧ ev.gemvIncx = (if tB == 'N' then 1 else ldB)
        ∧ (∀ p, eventWritesB ev p = true ↔
            ∃ r, rowLo uplo i ≤ r ∧ r < rowHi uplo n i ∧ p = cellAddr oC ldC r i)) := by
  rw [rec2_fst]
  constructor
  · simp
  · intro i hi ev hev
    rw [List.getElem?_map, List.getElem?_range hi] at hev
    have hev2 : rec2Ev uplo tA tB n k alpha oA ldA oB ldB beta oC ldC i = ev :=
      Option.some.inj hev
    subst hev2
    refine ⟨?_, ?_, ?_,
      fun p => rec2Ev_writes_iff hu hA tB n k alpha beta oA ldA oB ldB oC ldC i p⟩
    · rcases hu with rfl | rfl <;> rcases hA with rfl | rfl <;>
        simp [rec2Ev, Event.isGemv, beqLL, beqUL, beqNN, beqTN]
    · rcases hu with rfl | rfl <;> rcases hA with rfl | rfl <;>
        simp [rec2Ev, Event.gemvIncy, beqLL, beqUL, beqNN, beqTN]
    · rcases hu with rfl | rfl <;> rcases hA with rfl | rfl <;>
        simp [rec2Ev, Event.gemvIncx, beqLL, beqUL, beqNN, beqTN]

/-- C7 counterexample: with the fast-path flag set, the entry point forwards
an invalid call (uplo = 'X' is accepted by neither comparator test) directly
to the native primitive — dispatch happens without any validation by the
entry point, and no diagnostic is raised by it. -/
theorem claim_C7_counterexample :
    ¬ argsValid 'X' 'N' 'N' 1 1 1 1 1
    ∧ (RELAPACK_dgemmt true 0 'X' 'N' 'N' 1 1 1 (fun _ => 0) 1 (fun _ => 0) 1 0
        (fun _ => 0) 1).1 = [Event.nativeGemmt 'X' 'N' 'N' 1 1]
    ∧ ∀ name info, Event.xerbla name info ∉
        (RELAPACK_dgemmt true 0 'X' 'N' 'N' 1 1 1 (fun _ => 0) 1 (fun _ => 0) 1 0
          (fun _ => 0) 1).1 := by
  refine ⟨by decide, rfl, ?_⟩
  intro name info hmem
  rw [show (RELAPACK_dgemmt true 0 'X' 'N' 'N' 1 1 1 (fun _ => 0) 1 (fun _ => 0) 1 0
      (fun _ => 0) 1).1 = [Event.nativeGemmt 'X' 'N' 'N' 1 1] from rfl] at hmem
  simp at hmem

/-- C7 amended: when the fast-path flag is unset, argument checking precedes
dispatch — the entry point validates first, reports any violation through the
diagnostic collaborator with zero writes to C, and only on valid input
normalizes the flags and forwards to the recursive kernel; when the fast-path
flag is set, the entry point forwards unconditionally to the native
triangular-multiply primitive, delegating validation to it. -/
theorem claim_C7_amended (crossover : Nat) (uplo tA tB : Char) (n k : Int)
    (alpha : ℚ) (A : Mem) (ldA : Int) (B : Mem) (ldB : Int) (beta : ℚ)
    (C : Mem) (ldC : Int) :
    ((RELAPACK_dgemmt true crossover uplo tA tB n k alpha A ldA B ldB beta C ldC).1
      = [Event.nativeGemmt uplo tA tB n k])
    ∧ (¬ argsValid uplo tA tB n k ldA ldB ldC →
        RELAPACK_dgemmt false crossover uplo tA tB n k alpha A ldA B ldB beta C ldC
          = ([Event.xerbla "DGEMMT" (dgemmt_info uplo tA tB n k ldA ldB ldC)], C))
    ∧ (argsValid uplo tA tB n k ldA ldB ldC →
        RELAPACK_dgemmt false crossover uplo tA tB n k alpha A ldA B ldB beta C ldC
          = RELAPACK_dgemmt_rec crossover (if lsame uplo 'L' then 'L' else 'U')
              (if lsame tA 'N' then 'N' else 'T') (if lsame tB 'N' then 'N' else 'T')
              n.toNat k.toNat alpha A 0 ldA.toNat B 0 ldB.toNat beta C 0 ldC.toNat) := by
  refine ⟨rfl, fun hv => ?_, fun hv => ?_⟩
  · exact entry_invalid crossover uplo tA tB n k alpha A ldA B ldB beta C ldC
      (fun h => hv (valid_of_info_eq_zero h))
  · exact entry_valid crossover uplo tA tB n k alpha A ldA B ldB beta C ldC
      (info_eq_zero_of_valid hv)

end Relapack

namespace Relapack

theorem claim_C1_witness :
    argsValid 'L' 'N' 'N' 2 1 2 1 2
    ∧ ∀ i j, i < (2:Int).toNat → j < (2:Int).toNat →
      (if lsame 'L' 'L' then j ≤ i else i ≤ j) →
      (RELAPACK_dgemmt false 0 'L' 'N' 'N' 2 1 1 (fun _ => 0) 2 (fun _ => 0) 1 1
          (fun _ => 0) 2).2 (cellAddr 0 (2:Int).toNat i j)
        = triVal (if lsame 'N' 'N' then 'N' else 'T') (if lsame 'N' 'N' then 'N' else 'T')
            (1:Int).toNat 1 (fun _ => 0) 0 (2:Int).toNat (fun _ => 0) 0 (1:Int).toNat 1
            (fun _ => 0) 0 (2:Int).toNat i j :=
  ⟨by decide, claim_C1 0 'L' 'N' 'N' 2 1 1 (fun _ => 0) 2 (fun _ => 0) 1 1
    (fun _ => 0) 2 (by decide)⟩

theorem claim_C2_witness :
    argsValid 'L' 'N' 'N' 2 1 2 1 2
    ∧ ∀ i j, i < (2:Int).toNat → j < (2:Int).toNat →
      (if lsame 'L' 'L' then i < j else j < i) →
      ((RELAPACK_dgemmt false 0 'L' 'N' 'N' 2 1 1 (fun _ => 0) 2 (fun _ => 0) 1 1
          (fun _ => 0) 2).2 (cellAddr 0 (2:Int).toNat i j)
          = (fun _ => (0:ℚ)) (cellAddr 0 (2:Int).toNat i j)
       ∧ ∀ ev ∈ (RELAPACK_dgemmt false 0 'L' 'N' 'N' 2 1 1 (fun _ => 0) 2 (fun _ => 0)
            1 1 (fun _ => 0) 2).1, eventWritesB ev (cellAddr 0 (2:Int).toNat i j) = false) :=
  ⟨by decide, claim_C2 0 'L' 'N' 'N' 2 1 1 (fun _ => 0) 2 (fun _ => 0) 1 1
    (fun _ => 0) 2 (by decide)⟩

theorem claim_C3_witness :
    ¬ argsValid 'X' 'N' 'N' 2 1 2 1 2
    ∧ (RELAPACK_dgemmt false 0 'X' 'N' 'N' 2 1 1 (fun _ => 0) 2 (fun _ => 0) 1 1
        (fun _ => 0) 2
      = ([Event.xerbla "DGEMMT" (dgemmt_info 'X' 'N' 'N' 2 1 2 1 2)], fun _ => (0:ℚ))
    ∧ dgemmt_info 'X' 'N' 'N' 2 1 2 1 2 ≠ 0
    ∧ (¬(lsame 'X' 'L' = true ∨ lsame 'X' 'U' = true) →
        dgemmt_info 'X' 'N' 'N' 2 1 2 1 2 = 1)
    ∧ ((lsame 'X' 'L' = true ∨ lsame 'X' 'U' = true) →
       ¬(lsame 'N' 'N' = true ∨ lsame 'N' 'T' = true) →
        dgemmt_info 'X' 'N' 'N' 2 1 2 1 2 = 2)
    ∧ ((lsame 'X' 'L' = true ∨ lsame 'X' 'U' = true) →
       (lsame 'N' 'N' = true ∨ lsame 'N' 'T' = true) →
       ¬(lsame 'N' 'N' = true ∨ lsame 'N' 'T' = true) →
        dgemmt_info 'X' 'N' 'N' 2 1 2 1 2 = 3)
    ∧ ((lsame 'X' 'L' = true ∨ lsame 'X' 'U' = true) →
       (lsame 'N' 'N' = true ∨ lsame 'N' 'T' = true) →
       (lsame 'N' 'N' = true ∨ lsame 'N' 'T' = true) →
       (2:Int) < 0 →
        dgemmt_info 'X' 'N' 'N' 2 1 2 1 2 = 4)
    ∧ ((lsame 'X' 'L' = true ∨ lsame 'X' 'U' = true) →
       (lsame 'N' 'N' = true ∨ lsame 'N' 'T' = true) →
       (lsame 'N' 'N' = true ∨ lsame 'N' 'T' = true) →
       (0:Int) ≤ 2 → (1:Int) < 0 →
        dgemmt_info 'X' 'N' 'N' 2 1 2 1 2 = 5)
    ∧ ((lsame 'X' 'L' = true ∨ lsame 'X' 'U' = true) →
       (lsame 'N' 'N' = true ∨ lsame 'N' 'T' = true) →
       (lsame 'N' 'N' = true ∨ lsame 'N' 'T' = true) →
       (0:Int) ≤ 2 → (0:Int) ≤ 1 → (2:Int) < max 1 (if lsame 'N' 'N' then 2 else 1) →
        dgemmt_info 'X' 'N' 'N' 2 1 2 1 2 = 8)
    ∧ ((lsame 'X' 'L' = true ∨ lsame 'X' 'U' = true) →
       (lsame 'N' 'N' = true ∨ lsame 'N' 'T' = true) →
       (lsame 'N' 'N' = true ∨ lsame 'N' 'T' = true) →
       (0:Int) ≤ 2 → (0:Int) ≤ 1 → max (1:Int) (if lsame 'N' 'N' then 2 else 1) ≤ 2 →
       (1:Int) < max 1 (if lsame 'N' 'N' then 1 else 2) →
        dgemmt_info 'X' 'N' 'N' 2 1 2 1 2 = 10)
    ∧ ((lsame 'X' 'L' = true ∨ lsame 'X' 'U' = true) →
       (lsame 'N' 'N' = true ∨ lsame 'N' 'T' = true) →
       (lsame 'N' 'N' = true ∨ lsame 'N' 'T' = true) →
       (0:Int) ≤ 2 → (0:Int) ≤ 1 → max (1:Int) (if lsame 'N' 'N' then 2 else 1) ≤ 2 →
       max (1:Int) (if lsame 'N' 'N' then 1 else 2) ≤ 1 → (2:Int) < max 1 2 →
        dgemmt_info 'X' 'N' 'N' 2 1 2 1 2 = 13)) :=
  ⟨by decide, claim_C3 0 'X' 'N' 'N' 2 1 1 (fun _ => 0) 2 (fun _ => 0) 1 1
    (fun _ => 0) 2 (by decide)⟩

theorem claim_C4_witness :
    (('L' = 'L' ∨ 'L' = 'U') ∧ ('N' = 'N' ∨ 'N' = 'T') ∧ ('N' = 'N' ∨ 'N' = 'T')
      ∧ (2:Nat) ≤ 2)
    ∧ ((∀ t, 2 ≤ t →
        (RELAPACK_dgemmt_rec 1 'L' 'N' 'N' 2 1 1 (fun _ => 0) 0 2 (fun _ => 0) 0 1 1
          (fun _ => 0) 0 2).2
          = (RELAPACK_dgemmt_rec t 'L' 'N' 'N' 2 1 1 (fun _ => 0) 0 2 (fun _ => 0) 0 1 1
            (fun _ => 0) 0 2).2)
      ∧ (RELAPACK_dgemmt_rec 1 'L' 'N' 'N' 2 1 1 (fun _ => 0) 0 2 (fun _ => 0) 0 1 1
          (fun _ => 0) 0 2).2
        = (RELAPACK_dgemmt_rec2 'L' 'N' 'N' 2 1 1 (fun _ => 0) 0 2 (fun _ => 0) 0 1 1
          (fun _ => 0) 0 2).2) :=
  ⟨⟨by decide, by decide, by decide, by decide⟩,
    claim_C4 (by decide) (by decide) (by decide) 2 1 1 1 (fun _ => 0) (fun _ => 0)
      0 2 0 1 (fun _ => 0) 0 2 (by decide)⟩

theorem claim_C6_witness :
    (('L' = 'L' ∨ 'L' = 'U') ∧ ('N' = 'N' ∨ 'N' = 'T') ∧ ('N' = 'N' ∨ 'N' = 'T'))
    ∧ (((RELAPACK_dgemmt_rec2 'L' 'N' 'N' 2 1 1 (fun _ => 0) 0 2 (fun _ => 0) 0 1 1
          (fun _ => 0) 0 2).1.length = 2)
      ∧ (∀ i, i < 2 → ∀ ev,
          ((RELAPACK_dgemmt_rec2 'L' 'N' 'N' 2 1 1 (fun _ => 0) 0 2 (fun _ => 0) 0 1 1
            (fun _ => 0) 0 2).1)[i]? = some ev →
          ev.isGemv = true ∧ ev.gemvIncy = 1
          ∧ ev.gemvIncx = (if 'N' == 'N' then 1 else 1)
          ∧ (∀ p, eventWritesB ev p = true ↔
              ∃ r, rowLo 'L' i ≤ r ∧ r < rowHi 'L' 2 i ∧ p = cellAddr 0 2 r i))) :=
  ⟨⟨by decide, by decide, by decide⟩,
    claim_C6 (by decide) (by decide) (by decide) 2 1 1 1 (fun _ => 0) (fun _ => 0)
      0 2 0 1 (fun _ => 0) 0 2⟩

theorem claim_C8_witness :
    argsValid 'L' 'N' 'N' 2 1 2 1 2
    ∧ ∀ p : Nat,
      (isTriCell (if lsame 'L' 'L' then 'L' else 'U') (2:Int).toNat 0 (2:Int).toNat p →
        ((RELAPACK_dgemmt false 0 'L' 'N' 'N' 2 1 1 (fun _ => 0) 2 (fun _ => 0) 1 1
            (fun _ => 0) 2).1.countP (fun ev => eventWritesB ev p)) = 1)
      ∧ (¬ isTriCell (if lsame 'L' 'L' then 'L' else 'U') (2:Int).toNat 0 (2:Int).toNat p →
        ((RELAPACK_dgemmt false 0 'L' 'N' 'N' 2 1 1 (fun _ => 0) 2 (fun _ => 0) 1 1
            (fun _ => 0) 2).1.countP (fun ev => eventWritesB ev p)) = 0) :=
  ⟨by decide, claim_C8 0 'L' 'N' 'N' 2 1 1 (fun _ => 0) 2 (fun _ => 0) 1 1
    (fun _ => 0) 2 (by decide)⟩

theorem claim_C9_witness :
    argsValid 'L' 'N' 'N' 0 1 2 1 1
    ∧ RELAPACK_dgemmt false 0 'L' 'N' 'N' 0 1 1 (fun _ => 0) 2 (fun _ => 0) 1 1
        (fun _ => 0) 1 = ([], fun _ => (0:ℚ)) :=
  ⟨by decide, claim_C9 0 'L' 'N' 'N' 1 1 (fun _ => 0) 2 (fun _ => 0) 1 1
    (fun _ => 0) 1 (by decide)⟩

theorem claim_C10_witness :
    ((lsame 'l' 'L' = true ∨ lsame 'l' 'U' = true)
      ∧ (lsame 'n' 'N' = true ∨ lsame 'n' 'T' = true)
      ∧ (lsame 't' 'N' = true ∨ lsame 't' 'T' = true))
    ∧ RELAPACK_dgemmt false 0 'l' 'n' 't' 2 1 1 (fun _ => 0) 2 (fun _ => 0) 2 1
        (fun _ => 0) 2
      = RELAPACK_dgemmt false 0 (if lsame 'l' 'L' then 'L' else 'U')
          (if lsame 'n' 'N' then 'N' else 'T') (if lsame 't' 'N' then 'N' else 'T')
          2 1 1 (fun _ => 0) 2 (fun _ => 0) 2 1 (fun _ => 0) 2 :=
  ⟨⟨by decide, by decide, by decide⟩,
    claim_C10 0 'l' 'n' 't' 2 1 1 (fun _ => 0) 2 (fun _ => 0) 2 1 (fun _ => 0) 2
      (by decide) (by decide) (by decide)⟩

end Relapack

namespace Relapack

theorem claim_C5_witness :
    (('L' = 'L' ∨ 'L' = 'U') ∧ ('N' = 'N' ∨ 'N' = 'T') ∧ ('N' = 'N' ∨ 'N' = 'T')
      ∧ (2:Nat) ≤ 2 ∧ max 0 1 < 2)
    ∧ ((RELAPACK_dgemmt_rec 0 'L' 'N' 'N' 2 1 1 (fun _ => 0) 0 2 (fun _ => 0) 0 1 1
          (fun _ => 0) 0 2).1
        = (RELAPACK_dgemmt_rec 0 'L' 'N' 'N' (DREC_SPLIT 2) 1 1 (fun _ => 0) 0 2
              (fun _ => 0) 0 1 1 (fun _ => 0) 0 2).1
          ++ [if 'L' == 'L' then
                Event.gemm 'N' 'N' (2 - DREC_SPLIT 2) (DREC_SPLIT 2) 1 1
                  (0 + (if 'N' == 'N' then DREC_SPLIT 2 else 2 * DREC_SPLIT 2)) 2
                  0 1 1 (0 + DREC_SPLIT 2) 2
              else
                Event.gemm 'N' 'N' (DREC_SPLIT 2) (2 - DREC_SPLIT 2) 1 1 0 2
                  (0 + (if 'N' == 'N' then 1 * DREC_SPLIT 2 else DREC_SPLIT 2)) 1
                  1 (0 + 2 * DREC_SPLIT 2) 2]
          ++ (RELAPACK_dgemmt_rec 0 'L' 'N' 'N' (2 - DREC_SPLIT 2) 1 1 (fun _ => 0)
                (0 + (if 'N' == 'N' then DREC_SPLIT 2 else 2 * DREC_SPLIT 2)) 2
                (fun _ => 0)
                (0 + (if 'N' == 'N' then 1 * DREC_SPLIT 2 else DREC_SPLIT 2)) 1 1
                (fun _ => 0) (0 + 2 * DREC_SPLIT 2 + DREC_SPLIT 2) 2).1
      ∧ (∀ p, eventWritesB
            (if 'L' == 'L' then
              Event.gemm 'N' 'N' (2 - DREC_SPLIT 2) (DREC_SPLIT 2) 1 1
                (0 + (if 'N' == 'N' then DREC_SPLIT 2 else 2 * DREC_SPLIT 2)) 2
                0 1 1 (0 + DREC_SPLIT 2) 2
            else
              Event.gemm 'N' 'N' (DREC_SPLIT 2) (2 - DREC_SPLIT 2) 1 1 0 2
                (0 + (if 'N' == 'N' then 1 * DREC_SPLIT 2 else DREC_SPLIT 2)) 1
                1 (0 + 2 * DREC_SPLIT 2) 2) p = true →
          isTriCell 'L' 2 0 2 p)) :=
  ⟨⟨by decide, by decide, by decide, by decide, by decide⟩,
    claim_C5 0 (by decide) (by decide) (by decide) 2 1 1 1 (fun _ => 0) (fun _ => 0)
      0 2 0 1 (fun _ => 0) 0 2 (by decide) (by decide)⟩

theorem claim_C7_amended_witness :
    ((RELAPACK_dgemmt true 0 'L' 'N' 'N' 2 1 1 (fun _ => 0) 2 (fun _ => 0) 1 1
        (fun _ => 0) 2).1 = [Event.nativeGemmt 'L' 'N' 'N' 2 1])
    ∧ (¬ argsValid 'L' 'N' 'N' 2 1 2 1 2 →
        RELAPACK_dgemmt false 0 'L' 'N' 'N' 2 1 1 (fun _ => 0) 2 (fun _ => 0) 1 1
          (fun _ => 0) 2
          = ([Event.xerbla "DGEMMT" (dgemmt_info 'L' 'N' 'N' 2 1 2 1 2)], fun _ => (0:ℚ)))
    ∧ (argsValid 'L' 'N' 'N' 2 1 2 1 2 →
        RELAPACK_dgemmt false 0 'L' 'N' 'N' 2 1 1 (fun _ => 0) 2 (fun _ => 0) 1 1
          (fun _ => 0) 2
          = RELAPACK_dgemmt_rec 0 (if lsame 'L' 'L' then 'L' else 'U')
              (if lsame 'N' 'N' then 'N' else 'T') (if lsame 'N' 'N' then 'N' else 'T')
              (2:Int).toNat (1:Int).toNat 1 (fun _ => 0) 0 (2:Int).toNat (fun _ => 0) 0
              (1:Int).toNat 1 (fun _ => 0) 0 (2:Int).toNat) :=
  claim_C7_amended 0 'L' 'N' 'N' 2 1 1 (fun _ => 0) 2 (fun _ => 0) 1 1 (fun _ => 0) 2

end Relapack
